import Mathlib

/-!
Verification of the `laInternship` repository (plan-driven browser automation).

This file is a shallow embedding, in Lean 4, of the pure logic of the
repository's three source modules:

* `src/mcpAI/llmPlan.py`  — snapshot summarization (`_summarize_snapshot`),
* `src/mcpAI/robotAI.py`  — selector normalization, plan loading and the plan
  execution engine (`load_plan_or_die`, `_replace_contains`,
  `_text_from_selector`, `_flatten_inventory_selector`, `_normalize`,
  `_get_step_id`, `execute_plan`),
* `src/mcpAI/app.py`      — the calling service's stdout parsers
  (`_parse_json_tail`, `_fallback_key_values` and their combination in
  `launch`).

Python values that cross these functions are JSON-shaped, so they are
modelled by an inductive `Json` type (numbers as integers; objects are
key/value lists, assumed key-unique as produced by `json.loads`, looked up by
first match).  External effects (the Playwright browser, the LLM, `str.format`)
are modelled as oracles passed in as explicit function arguments.
-/

namespace LaInternship

/-- JSON-shaped Python values (dict / list / str / int / bool / None). -/
inductive Json where
  | null : Json
  | bool : Bool → Json
  | num : Int → Json
  | str : String → Json
  | arr : List Json → Json
  | obj : List (String × Json) → Json

/-- Python `dict.get`: first binding of `key` in an object's key/value list
(objects produced by `json.loads` have unique keys). -/
def jGet : List (String × Json) → String → Option Json
  | [], _ => none
  | (k, v) :: rest, key => if k = key then some v else jGet rest key

/-- Python truthiness (`if x:`) of a JSON-shaped value. -/
def pyTruthy : Json → Bool
  | .null => false
  | .bool b => b
  | .num n => decide (n ≠ 0)
  | .str s => !s.isEmpty
  | .arr xs => !xs.isEmpty
  | .obj kvs => !kvs.isEmpty

/-- Python `x == "lit"` for a JSON-shaped `x` (true only for an equal string). -/
def jIsStr (j : Json) (s : String) : Bool :=
  match j with
  | .str t => t = s
  | _ => false

/-! ## Snapshot summarization (`llmPlan.py`, `_summarize_snapshot`) -/

/-- One summarized node record, as built by the `entry` dict in
`_summarize_snapshot`: optional `role`, optional `name`, and an `attrs`
key/value list. -/
structure SEntry where
  role : Option Json
  name : Option Json
  attrs : List (String × Json)

/-- The `attrs` dict of an entry: `data-*` attributes with truthy values taken
from the node's `attributes` sub-dict, then truthy `id` and `class` taken from
the node itself (lines 134-143 of `llmPlan.py`). -/
def attrsOf (kvs : List (String × Json)) : List (String × Json) :=
  let dataAttrs :=
    match jGet kvs "attributes" with
    | some (.obj akvs) => akvs.filter (fun kv => kv.1.startsWith "data-" && pyTruthy kv.2)
    | _ => []
  let idCls := ["id", "class"].filterMap (fun k =>
    match jGet kvs k with
    | some v => if pyTruthy v then some (k, v) else none
    | none => none)
  dataAttrs ++ idCls

/-- The `entry` built for one object node (lines 125-145 of `llmPlan.py`):
truthy `role`, truthy `name`, and the attrs. -/
def entryOf (kvs : List (String × Json)) : SEntry :=
  { role :=
      match jGet kvs "role" with
      | some v => if pyTruthy v then some v else none
      | none => none
    name :=
      match jGet kvs "name" with
      | some v => if pyTruthy v then some v else none
      | none => none
    attrs := attrsOf kvs }

/-- `if entry: nodes.append(entry)` — the entry dict is appended only when it
is non-empty, i.e. when it holds a role, a name, or a non-empty attrs dict. -/
def entryItems (kvs : List (String × Json)) : List SEntry :=
  let e := entryOf kvs
  if e.role.isSome || e.name.isSome || !e.attrs.isEmpty then [e] else []

/-- The effective list iterated by
`children = node.get(child_key) or []` / `if isinstance(children, list)`:
a list value yields its items (an empty list is falsy and `or` turns it into
`[]`, the same list); any other or missing value contributes nothing. -/
def childItems (kvs : List (String × Json)) (key : String) : List Json :=
  match jGet kvs key with
  | some (.arr xs) => xs
  | _ => []

theorem jGet_sizeOf {kvs : List (String × Json)} {key : String} {v : Json}
    (h : jGet kvs key = some v) : sizeOf v < sizeOf kvs := by
  induction kvs with
  | nil => simp [jGet] at h
  | cons kv rest ih =>
    obtain ⟨k, w⟩ := kv
    simp only [jGet] at h
    by_cases hk : k = key
    · simp [hk] at h
      subst h
      simp
      omega
    · simp [hk] at h
      have := ih h
      simp
      omega

theorem childItems_sizeOf (kvs : List (String × Json)) (key : String) :
    sizeOf (childItems kvs key) < sizeOf (Json.obj kvs) := by
  unfold childItems
  have hk : (1 : ℕ) ≤ sizeOf kvs := by
    cases kvs
    · simp
    · simp; omega
  cases hj : jGet kvs key with
  | none => simp; omega
  | some v =>
    have hv := jGet_sizeOf hj
    cases v <;> simp_all <;> omega

mutual

/-- The recursive `collect` of `_summarize_snapshot` (lines 122-155 of
`llmPlan.py`), written as a pure function threading the accumulated node list.
A non-dict node returns at once (non-object children are leaves); a dict node
returns at once when the cap is reached, otherwise appends its entry (if
non-empty) and folds over the `children` and `nodes` child containers.
The source's mid-loop `if len(nodes) >= max_nodes: return` early exits are
observationally redundant here: every later `collect` call begins with the
same cap check and returns the accumulator unchanged, so the returned list is
identical. -/
def collect (maxN : Nat) : Json → List SEntry → List SEntry
  | .obj kvs, acc =>
    if maxN ≤ acc.length then acc
    else
      collectList maxN (childItems kvs "nodes")
        (collectList maxN (childItems kvs "children") (acc ++ entryItems kvs))
  | .null, acc => acc
  | .bool _, acc => acc
  | .num _, acc => acc
  | .str _, acc => acc
  | .arr _, acc => acc
termination_by j _ => sizeOf j
decreasing_by
  · exact childItems_sizeOf kvs "children"
  · exact childItems_sizeOf kvs "nodes"

/-- `for child in children: collect(child)` over one child container. -/
def collectList (maxN : Nat) : List Json → List SEntry → List SEntry
  | [], acc => acc
  | c :: cs, acc => collectList maxN cs (collect maxN c acc)
termination_by cs _ => sizeOf cs

end

/-- Result of `_summarize_snapshot`: `{"error": ...}` or `{"nodes": [...]}`. -/
inductive SnapResult where
  | err (msg : String)
  | nodes (ns : List SEntry)

/-- `_summarize_snapshot(snapshot, max_nodes)` (lines 116-166 of
`llmPlan.py`): a falsy snapshot is an error; a dict snapshot is collected
directly; a list snapshot has its items collected in order (the source's
`if len(nodes) >= max_nodes: break` is again redundant because `collect`
no-ops at the cap); any other truthy snapshot yields an empty node list. -/
def summarize_snapshot (maxN : Nat) (snapshot : Json) : SnapResult :=
  if pyTruthy snapshot then
    match snapshot with
    | .obj kvs => .nodes (collect maxN (.obj kvs) [])
    | .arr xs => .nodes (collectList maxN xs [])
    | _ => .nodes []
  else .err "no snapshot"

/-- `DEFAULT_MAX_NODES = 120` (line 32 of `llmPlan.py`). -/
def DEFAULT_MAX_NODES : Nat := 120

theorem entryItems_length (kvs : List (String × Json)) :
    (entryItems kvs).length ≤ 1 := by
  simp only [entryItems]
  split <;> simp

theorem cap_both (maxN : Nat) :
    (∀ j acc, acc.length ≤ maxN → (collect maxN j acc).length ≤ maxN) ∧
    (∀ cs acc, acc.length ≤ maxN → (collectList maxN cs acc).length ≤ maxN) := by
  refine
    ⟨collect.induct maxN
        (fun j acc => acc.length ≤ maxN → (collect maxN j acc).length ≤ maxN)
        (fun cs acc => acc.length ≤ maxN → (collectList maxN cs acc).length ≤ maxN)
        ?hc ?ho ?h1 ?h2 ?h3 ?h4 ?h5 ?hn ?hs,
      collectList.induct maxN
        (fun j acc => acc.length ≤ maxN → (collect maxN j acc).length ≤ maxN)
        (fun cs acc => acc.length ≤ maxN → (collectList maxN cs acc).length ≤ maxN)
        ?hc ?ho ?h1 ?h2 ?h3 ?h4 ?h5 ?hn ?hs⟩
  case hc =>
    intro kvs acc hcap hle
    simp only [collect, if_pos hcap]
    exact hle
  case ho =>
    intro kvs acc hcap ih1 ih2 hle
    simp only [collect, if_neg hcap]
    apply ih2
    apply ih1
    have := entryItems_length kvs
    simp only [List.length_append]
    omega
  case h1 => intro acc hle; simpa [collect] using hle
  case h2 => intro b acc hle; simpa [collect] using hle
  case h3 => intro n acc hle; simpa [collect] using hle
  case h4 => intro s acc hle; simpa [collect] using hle
  case h5 => intro xs acc hle; simpa [collect] using hle
  case hn => intro acc hle; simpa [collectList] using hle
  case hs =>
    intro c cs acc ih1 ih2 hle
    simp only [collectList]
    exact ih2 (ih1 hle)

theorem summarize_snapshot_cap (maxN : Nat) (snapshot : Json) (ns : List SEntry)
    (h : summarize_snapshot maxN snapshot = .nodes ns) : ns.length ≤ maxN := by
  unfold summarize_snapshot at h
  split at h
  · split at h
    · cases h
      exact (cap_both maxN).1 _ [] (by simp)
    · cases h
      exact (cap_both maxN).2 _ [] (by simp)
    · cases h
      simp
  · cases h

/-- What is true of every record the summarizer appends: it carries a role, a
name, or at least one retained attribute, and every attribute key is a
`data-*` key, `id`, or `class`. -/
def emittedOk (e : SEntry) : Prop :=
  (e.role.isSome = true ∨ e.name.isSome = true ∨ e.attrs ≠ []) ∧
    ∀ kv ∈ e.attrs, kv.1.startsWith "data-" = true ∨ kv.1 = "id" ∨ kv.1 = "class"

theorem entryItems_emittedOk (kvs : List (String × Json)) :
    ∀ e ∈ entryItems kvs, emittedOk e := by
  intro e he
  simp only [entryItems] at he
  split at he
  case isTrue hcond =>
    simp only [List.mem_singleton] at he
    subst he
    constructor
    · simp only [Bool.or_eq_true, Bool.not_eq_eq_eq_not, Bool.not_true] at hcond
      rcases hcond with (h | h) | h
      · exact Or.inl h
      · exact Or.inr (Or.inl h)
      · refine Or.inr (Or.inr ?_)
        intro hnil
        simp [hnil, List.isEmpty] at h
    · intro kv hkv
      simp only [entryOf, attrsOf] at hkv
      rcases List.mem_append.mp hkv with hd | hi
      · split at hd
        · have hm := (List.mem_filter.mp hd).2
          simp only [Bool.and_eq_true] at hm
          exact Or.inl hm.1
        · simp at hd
      · rcases List.mem_filterMap.mp hi with ⟨k, hk, hkv2⟩
        split at hkv2
        · split at hkv2
          · cases hkv2
            simp only [List.mem_cons, List.mem_singleton] at hk
            rcases hk with h | h | h
            · exact Or.inr (Or.inl h)
            · exact Or.inr (Or.inr h)
            · simp at h
          · cases hkv2
        · cases hkv2
  case isFalse => simp at he

theorem emitted_both (maxN : Nat) :
    (∀ j acc, (∀ e ∈ acc, emittedOk e) → ∀ e ∈ collect maxN j acc, emittedOk e) ∧
    (∀ cs acc, (∀ e ∈ acc, emittedOk e) → ∀ e ∈ collectList maxN cs acc, emittedOk e) := by
  refine
    ⟨collect.induct maxN
        (fun j acc => (∀ e ∈ acc, emittedOk e) → ∀ e ∈ collect maxN j acc, emittedOk e)
        (fun cs acc => (∀ e ∈ acc, emittedOk e) → ∀ e ∈ collectList maxN cs acc, emittedOk e)
        ?hc ?ho ?h1 ?h2 ?h3 ?h4 ?h5 ?hn ?hs,
      collectList.induct maxN
        (fun j acc => (∀ e ∈ acc, emittedOk e) → ∀ e ∈ collect maxN j acc, emittedOk e)
        (fun cs acc => (∀ e ∈ acc, emittedOk e) → ∀ e ∈ collectList maxN cs acc, emittedOk e)
        ?hc ?ho ?h1 ?h2 ?h3 ?h4 ?h5 ?hn ?hs⟩
  case hc =>
    intro kvs acc hcap hacc
    simpa only [collect, if_pos hcap] using hacc
  case ho =>
    intro kvs acc hcap ih1 ih2 hacc
    simp only [collect, if_neg hcap]
    apply ih2
    apply ih1
    intro e he
    rcases List.mem_append.mp he with h | h
    · exact hacc e h
    · exact entryItems_emittedOk kvs e h
  case h1 => intro acc hacc; simpa [collect] using hacc
  case h2 => intro b acc hacc; simpa [collect] using hacc
  case h3 => intro n acc hacc; simpa [collect] using hacc
  case h4 => intro s acc hacc; simpa [collect] using hacc
  case h5 => intro xs acc hacc; simpa [collect] using hacc
  case hn => intro acc hacc; simpa [collectList] using hacc
  case hs =>
    intro c cs acc ih1 ih2 hacc
    simp only [collectList]
    exact ih2 (ih1 hacc)

theorem summarize_snapshot_emittedOk (maxN : Nat) (snapshot : Json)
    (ns : List SEntry) (h : summarize_snapshot maxN snapshot = .nodes ns) :
    ∀ e ∈ ns, emittedOk e := by
  unfold summarize_snapshot at h
  split at h
  · split at h
    · cases h
      exact (emitted_both maxN).1 _ [] (by simp)
    · cases h
      exact (emitted_both maxN).2 _ [] (by simp)
    · cases h
      simp
  · cases h

/-- Non-object nodes are leaves: `collect` returns the accumulator untouched
(the source's `if not isinstance(node, dict): return`). -/
theorem collect_leaf (maxN : Nat) (j : Json) (h : ∀ kvs, j ≠ .obj kvs)
    (acc : List SEntry) : collect maxN j acc = acc := by
  cases j
  case obj kvs => exact absurd rfl (h kvs)
  all_goals simp [collect]

/-! ### Snapshot graphs with cycles

`_summarize_snapshot` receives an in-memory Python value, which may be a dict
graph with reference cycles (unlike the inductive `Json`, which only covers
finite trees).  To settle the cycle part of the traversal claims we model such
values by a heap: a heap value is a reference to a numbered heap dict, a list
of heap values, or an atomic (non-dict, non-list) value. -/

/-- A Python value living in a heap that may contain dict cycles. -/
inductive HVal where
  | ref : Nat → HVal
  | arr : List HVal → HVal
  | atom : Json → HVal

/-- A heap: dict number `i` holds the key/value list `heap.get? i`. -/
def Heap := List (List (String × HVal))

/-- `dict.get` on a heap dict. -/
def hGet : List (String × HVal) → String → Option HVal
  | [], _ => none
  | (k, v) :: rest, key => if k = key then some v else hGet rest key

/-- Python truthiness of a heap value (a referenced dict is truthy iff
non-empty). -/
def hTruthy (heap : Heap) : HVal → Bool
  | .ref i =>
    match heap.get? i with
    | some fields => !fields.isEmpty
    | none => false
  | .arr xs => !xs.isEmpty
  | .atom j => pyTruthy j

/-- An entry record built from a heap dict (same logic as `entryOf`). -/
structure SEntryH where
  role : Option HVal
  name : Option HVal
  attrs : List (String × HVal)

/-- The attrs of a heap-dict node (same logic as `attrsOf`; the `attributes`
value must itself be a dict, i.e. a reference). -/
def attrsOfH (heap : Heap) (kvs : List (String × HVal)) : List (String × HVal) :=
  let dataAttrs :=
    match hGet kvs "attributes" with
    | some (.ref i) =>
      match heap.get? i with
      | some akvs => akvs.filter (fun kv => kv.1.startsWith "data-" && hTruthy heap kv.2)
      | none => []
    | _ => []
  let idCls := ["id", "class"].filterMap (fun k =>
    match hGet kvs k with
    | some v => if hTruthy heap v then some (k, v) else none
    | none => none)
  dataAttrs ++ idCls

/-- The entry of a heap-dict node (same logic as `entryOf`). -/
def entryOfH (heap : Heap) (kvs : List (String × HVal)) : SEntryH :=
  { role :=
      match hGet kvs "role" with
      | some v => if hTruthy heap v then some v else none
      | none => none
    name :=
      match hGet kvs "name" with
      | some v => if hTruthy heap v then some v else none
      | none => none
    attrs := attrsOfH heap kvs }

/-- `if entry: nodes.append(entry)` on a heap-dict node. -/
def entryItemsH (heap : Heap) (kvs : List (String × HVal)) : List SEntryH :=
  let e := entryOfH heap kvs
  if e.role.isSome || e.name.isSome || !e.attrs.isEmpty then [e] else []

/-- Effective child list of a heap-dict node under one child key. -/
def childItemsH (kvs : List (String × HVal)) (key : String) : List HVal :=
  match hGet kvs key with
  | some (.arr xs) => xs
  | _ => []

/-- The DFS of `collect`, defunctionalized over the heap: the task stack holds
the pending `collect(child)` calls in execution order, and `fuel` bounds how
many `collect` calls may still run.  This is exactly the traversal of
`_summarize_snapshot` on an in-memory (possibly cyclic) value: a non-dict task
is a leaf, a dict task at the cap is a no-op (the source's early returns once
`len(nodes) >= max_nodes` change no output), and otherwise the dict's entry is
appended and its `children`/`nodes` items are stacked depth-first.  A `none`
result for every fuel means the Python recursion never returns a node list
(CPython aborts with `RecursionError`). -/
def collectFuel (heap : Heap) (maxN : Nat) :
    Nat → List HVal → List SEntryH → Option (List SEntryH)
  | _, [], acc => some acc
  | 0, _ :: _, _ => none
  | fuel + 1, t :: rest, acc =>
    match t with
    | .ref i =>
      match heap.get? i with
      | none => collectFuel heap maxN fuel rest acc
      | some kvs =>
        if maxN ≤ acc.length then collectFuel heap maxN fuel rest acc
        else
          collectFuel heap maxN fuel
            (childItemsH kvs "children" ++ childItemsH kvs "nodes" ++ rest)
            (acc ++ entryItemsH heap kvs)
    | .arr _ => collectFuel heap maxN fuel rest acc
    | .atom _ => collectFuel heap maxN fuel rest acc

/-- One self-referential snapshot: dict `0` is `{"children": [<dict 0>]}` —
a cycle reachable only through the `children` key, whose node emits no
record. -/
def cyclicHeap : Heap := [[("children", HVal.arr [HVal.ref 0])]]

/-- The traversal of `cyclicHeap` runs out of any amount of fuel: the
recursion of `_summarize_snapshot` never terminates on this input. -/
def cyclicTraversalDiverges : Prop :=
  ∀ fuel, collectFuel cyclicHeap DEFAULT_MAX_NODES fuel [HVal.ref 0] [] = none

/-! ## Claim theorems for snapshot summarization (C1, C8) -/

/-- C1 (amended, part refuted by `C1_counterexample`): on every finite
snapshot value — arbitrarily deep or wide — summarization returns a node list
of length at most the configured cap (default 120), and non-object child
entries are leaves: `collect` returns its accumulator unchanged on them. -/
theorem C1_summarize_bounded :
    (∀ snapshot ns, summarize_snapshot DEFAULT_MAX_NODES snapshot = .nodes ns →
        ns.length ≤ DEFAULT_MAX_NODES) ∧
    ∀ j acc, (∀ kvs, j ≠ .obj kvs) → collect DEFAULT_MAX_NODES j acc = acc :=
  ⟨fun _ _ h => summarize_snapshot_cap _ _ _ h,
   fun j acc h => collect_leaf DEFAULT_MAX_NODES j h acc⟩

/-- Witness for C1 at a concrete input: a one-node snapshot summarizes to one
record (within the cap), and a string child is a leaf. -/
theorem C1_summarize_bounded_witness :
    ([({ role := some (Json.str "button"), name := none, attrs := [] } : SEntry)]).length ≤
        DEFAULT_MAX_NODES ∧
    collect DEFAULT_MAX_NODES (Json.str "leaf") [] = [] := by
  constructor
  · exact C1_summarize_bounded.1 (Json.obj [("role", Json.str "button")]) _
      (by simp +decide [summarize_snapshot, collect, collectList, childItems, jGet,
        entryItems, entryOf, attrsOf, pyTruthy, DEFAULT_MAX_NODES])
  · exact C1_summarize_bounded.2 (Json.str "leaf") [] (by intro kvs h; cases h)

/-- C1 counterexample: on the cyclic snapshot `cyclicHeap` — a dict whose
`children` list contains the dict itself, emitting no record — the traversal
of `_summarize_snapshot` exhausts every fuel bound: it never terminates, so
the claim's "terminates ... including graphs with cycles" part is false on
the code. -/
theorem C1_cyclic_counterexample : cyclicTraversalDiverges := by
  intro fuel
  induction fuel with
  | zero => rfl
  | succ n ih => exact ih

/-- C8 (amended, part refuted by `C8_counterexample`): every record emitted
by snapshot summarization carries a role, a name, or at least one retained
attribute, and its attributes are limited to `data-*`, `id` and `class`. -/
theorem C8_emitted_records :
    ∀ maxN snapshot ns, summarize_snapshot maxN snapshot = .nodes ns →
      ∀ e ∈ ns, emittedOk e :=
  fun maxN snapshot ns h => summarize_snapshot_emittedOk maxN snapshot ns h

/-- Witness for C8 at a concrete input. -/
theorem C8_emitted_records_witness :
    emittedOk { role := some (Json.str "button"), name := none, attrs := [] } := by
  refine C8_emitted_records DEFAULT_MAX_NODES (Json.obj [("role", Json.str "button")])
    [{ role := some (Json.str "button"), name := none, attrs := [] }] ?_ _ ?_
  · simp +decide [summarize_snapshot, collect, collectList, childItems, jGet,
      entryItems, entryOf, attrsOf, pyTruthy, DEFAULT_MAX_NODES]
  · simp

/-- C8 counterexample: the node `{"id": "foo"}` carries neither a role nor a
name, yet summarization emits a record for it (its attrs dict is non-empty),
so "emit a record only if it carries a role or a name" is false on the
code. -/
theorem C8_counterexample :
    summarize_snapshot DEFAULT_MAX_NODES (Json.obj [("id", Json.str "foo")]) =
      .nodes [{ role := none, name := none, attrs := [("id", Json.str "foo")] }] := by
  simp +decide [summarize_snapshot, collect, collectList, childItems, jGet,
    entryItems, entryOf, attrsOf, pyTruthy, DEFAULT_MAX_NODES]

/-! ## Selector normalization (`robotAI.py`, lines 54-105)

The selector helpers use three regexes:
`:has-text\((["\'])(.*?)\1\)` and `:contains\((["\'])(.*?)\1\)` (a quoted,
lazily-matched fragment with a back-referenced quote; `.` does not cross
newlines), and the word-boundary searches `\bname\b` / `\bprice\b`.
They are modelled by direct scanners over character lists.  Word characters
are taken as ASCII alphanumerics plus underscore (CSS selectors in this
code path are ASCII). -/

/-- Does `pat` occur as a contiguous substring of `s`?  (Python `pat in s`.) -/
def hasSub (pat : List Char) : List Char → Bool
  | [] => pat.isEmpty
  | c :: cs => pat.isPrefixOf (c :: cs) || hasSub pat cs

/-- Substring test on strings. -/
def hasSubS (pat s : String) : Bool := hasSub pat.data s.data

/-- The lazy fragment match `(.*?)\1\)` from a given start: split off the
shortest newline-free run of characters followed by the quote `q` and `)`,
returning the fragment and the characters after the closing `)`.  (On fewer
than two remaining characters no close can follow, hence `none`.) -/
def findClose (q : Char) : List Char → Option (List Char × List Char)
  | [] => none
  | [_] => none
  | c :: d :: rest =>
    if c = '\n' then none
    else if c == q && d == ')' then some ([], rest)
    else (findClose q (d :: rest)).map (fun p => (c :: p.1, p.2))

/-- The characters of `:contains(`. -/
def containsPat : List Char := ":contains(".data

/-- The characters of `:has-text(`. -/
def hasTextPat : List Char := ":has-text(".data

/-- Attempt the pattern `<pat>\((["\'])(.*?)\1\)` at the very start of `cs`
(with `pat` standing for the literal head `:contains(` or `:has-text(`):
on success return the quote, the fragment, and the rest after the match. -/
def tryTextPat (pat cs : List Char) : Option (Char × List Char × List Char) :=
  if pat.isPrefixOf cs then
    match cs.drop pat.length with
    | q :: rest =>
      if q = '\'' || q = '"' then
        (findClose q rest).map (fun p => (q, p.1, p.2))
      else none
    | [] => none
  else none

/-- `re.search` for one of the two fragment patterns: try every start
position left to right and return the first matched fragment. -/
def searchPat (pat : List Char) : List Char → Option (List Char)
  | [] => none
  | c :: cs =>
    match tryTextPat pat (c :: cs) with
    | some x => some x.2.1
    | none => searchPat pat cs

/-- `text.replace('"', '\\"')` — escape embedded double quotes. -/
def escDQ : List Char → List Char
  | [] => []
  | c :: cs => if c = '"' then '\\' :: '"' :: escDQ cs else c :: escDQ cs

theorem findClose_rest_lt {q : Char} :
    ∀ {cs : List Char} {p : List Char × List Char},
      findClose q cs = some p → p.2.length < cs.length := by
  intro cs
  induction cs with
  | nil => intro p h; cases h
  | cons c cs ih =>
    intro p h
    cases cs with
    | nil => cases h
    | cons d rest =>
      rw [findClose] at h
      split at h
      · cases h
      · split at h
        · cases h
          simp
          omega
        · cases hrec : findClose q (d :: rest) with
          | none => rw [hrec] at h; cases h
          | some p2 =>
            rw [hrec] at h
            cases h
            have := ih hrec
            simp at this ⊢
            omega

theorem tryTextPat_rest_lt {pat cs : List Char} {x : Char × List Char × List Char}
    (hpat : pat ≠ []) (h : tryTextPat pat cs = some x) :
    x.2.2.length < cs.length := by
  simp only [tryTextPat] at h
  split at h
  case isFalse => cases h
  case isTrue hpre =>
    split at h
    case h_2 => cases h
    case h_1 q rest heq =>
      split at h
      case isFalse => cases h
      case isTrue hq =>
        cases hfc : findClose q rest with
        | none => rw [hfc] at h; cases h
        | some p =>
          rw [hfc] at h
          cases h
          have h1 := findClose_rest_lt hfc
          have h2 : rest.length < cs.length := by
            have h3 : (cs.drop pat.length).length = cs.length - pat.length :=
              List.length_drop _ _
            rw [heq] at h3
            have h4 : pat.length ≤ cs.length := by
              have := List.IsPrefix.length_le (List.isPrefixOf_iff_prefix.mp hpre)
              omega
            have h5 : 0 < pat.length := List.length_pos.mpr hpat
            simp at h3
            omega
          simp
          omega

/-- `_replace_contains` (lines 70-75 of `robotAI.py`): `re.sub` of
`:contains\((['"])(.*?)\1\)` by `:has-text("<fragment, " escaped>")`,
scanning left to right, never rescanning replaced text. -/
def replaceContainsL : List Char → List Char
  | [] => []
  | c :: cs =>
    match h : tryTextPat containsPat (c :: cs) with
    | some x =>
      hasTextPat ++ '"' :: escDQ x.2.1 ++ '"' :: ')' ::
        replaceContainsL x.2.2
    | none => c :: replaceContainsL cs
termination_by cs => cs.length
decreasing_by
  · have := tryTextPat_rest_lt (by simp [containsPat]) h
    simpa using this
  · simp

/-- String form of `_replace_contains`. -/
def replace_contains (s : String) : String := String.mk (replaceContainsL s.data)

/-- `_text_from_selector` (lines 58-66 of `robotAI.py`): first fragment of a
`:has-text(...)` match, else of a legacy `:contains(...)` match, else none. -/
def text_from_selector (s : String) : Option String :=
  match searchPat hasTextPat s.data with
  | some t => some (String.mk t)
  | none =>
    match searchPat containsPat s.data with
    | some t => some (String.mk t)
    | none => none

/-- `\w` of the word-boundary searches (ASCII approximation). -/
def isWordChar (c : Char) : Bool := c.isAlphanum || c = '_'

/-- `re.search(r"\b<w>\b", s)`: is there an occurrence of `w` preceded and
followed by a non-word character or the string edge?  `prev` is the character
just before the current start position. -/
def wordSearch (w : List Char) : Option Char → List Char → Bool
  | _, [] => false
  | prev, c :: cs =>
    (w.isPrefixOf (c :: cs) &&
      (match prev with
       | none => true
       | some p => !isWordChar p) &&
      (match (c :: cs).drop w.length with
       | [] => true
       | d :: _ => !isWordChar d)) ||
    wordSearch w (some c) cs

/-- Word-boundary search on strings. -/
def wordSearchS (w s : String) : Bool := wordSearch w.data none s.data

/-- The `wants_name` test of `_flatten_inventory_selector` (line 85). -/
def wants_name_flat (sel : String) : Bool :=
  hasSubS ".inventory_item_name" sel || wordSearchS "name" sel

/-- The `wants_price` test of `_flatten_inventory_selector` (line 86). -/
def wants_price_flat (sel : String) : Bool :=
  hasSubS ".inventory_item_price" sel || wordSearchS "price" sel

/-- `_flatten_inventory_selector` (lines 80-95 of `robotAI.py`): after
rewriting `:contains`, if a non-empty fragment is present and the selector
mentions the `.inventory_item` card scope and a name or price sub-field,
flatten to the two-level form; otherwise return the rewritten selector.
(The `sel != simplified` test in the source only guards logging.) -/
def flatten_inventory_selector (selector : String) : String :=
  let sel := replace_contains selector
  match text_from_selector sel with
  | some txt =>
    if !txt.isEmpty && hasSubS ".inventory_item" sel then
      if wants_name_flat sel || wants_price_flat sel then
        ".inventory_item:has-text(\"" ++ txt ++ "\") " ++
          (if wants_name_flat sel then ".inventory_item_name"
           else ".inventory_item_price")
      else sel
    else sel
  | none => sel

/-- `_normalize` (lines 99-105 of `robotAI.py`): flattening plus logging
only. -/
def normalize (selector : String) : String := flatten_inventory_selector selector

/-- The locator chosen by `_get_text_with_playwright_filters`
(lines 115-134 of `robotAI.py`): either the card filter
`page.locator(".inventory_item").filter(has_text=frag)` scoped to an optional
sub-field child, or the normalized selector used directly. -/
inductive PwTarget where
  | filtered (frag : String) (child : Option String)
  | direct (sel : String)

/-- The pure target-selection logic of `_get_text_with_playwright_filters`:
note the sub-field tests here use the undotted substrings
`inventory_item_name` / `inventory_item_price` (lines 121-122). -/
def pw_target (selector : String) : PwTarget :=
  let norm := normalize selector
  match text_from_selector norm with
  | some frag =>
    if !frag.isEmpty && hasSubS ".inventory_item" norm then
      if hasSubS "inventory_item_name" norm || wordSearchS "name" norm then
        .filtered frag (some ".inventory_item_name")
      else if hasSubS "inventory_item_price" norm || wordSearchS "price" norm then
        .filtered frag (some ".inventory_item_price")
      else .filtered frag none
    else .direct norm
  | none => .direct norm

/-! ### Lemmas about the selector scanners -/

theorem isPrefixOf_append_self (p rest : List Char) :
    p.isPrefixOf (p ++ rest) = true :=
  List.isPrefixOf_iff_prefix.mpr (List.prefix_append p rest)

theorem isPrefixOf_append_of_le (p : List Char) :
    ∀ (xs ys : List Char), p.isPrefixOf (xs ++ ys) = true →
      p.length ≤ xs.length → p.isPrefixOf xs = true := by
  induction p with
  | nil => intro xs ys _ _; simp [List.isPrefixOf]
  | cons a p ih =>
    intro xs ys h hlen
    cases xs with
    | nil => simp at hlen
    | cons b xs =>
      simp only [List.cons_append, List.isPrefixOf_cons₂_self] at h ⊢
      simp only [List.isPrefixOf] at h ⊢
      simp only [Bool.and_eq_true] at h ⊢
      refine ⟨h.1, ih xs ys h.2 ?_⟩
      simp at hlen
      omega

theorem hasSub_append_right (pat ys : List Char) (h : hasSub pat ys = true) :
    ∀ xs, hasSub pat (xs ++ ys) = true := by
  intro xs
  induction xs with
  | nil => simpa using h
  | cons c xs ih =>
    simp only [List.cons_append, hasSub, Bool.or_eq_true]
    exact Or.inr ih

theorem tryTextPat_none_of_not_pre {pat cs : List Char}
    (h : pat.isPrefixOf cs = false) : tryTextPat pat cs = none := by
  simp [tryTextPat, h]

theorem searchPat_cons (pat : List Char) (c : Char) (cs : List Char)
    (h : tryTextPat pat (c :: cs) = none) :
    searchPat pat (c :: cs) = searchPat pat cs := by
  simp [searchPat, h]

theorem findClose_exact (q : Char) (hq : q = '\'' ∨ q = '"') :
    ∀ (t rest : List Char), hasSub [q, ')'] t = false →
      t.all (fun c => !(c = '\n')) = true →
      findClose q (t ++ q :: ')' :: rest) = some (t, rest) := by
  have hqn : ¬(q = '\n') := by rcases hq with h | h <;> simp [h]
  have hqr : ¬(q = ')') := by rcases hq with h | h <;> simp [h]
  intro t
  induction t with
  | nil =>
    intro rest _ _
    simp only [List.nil_append]
    rw [findClose, if_neg hqn, if_pos (by simp)]
  | cons c t ih =>
    intro rest hsub hnl
    simp only [List.all_cons, Bool.and_eq_true] at hnl
    have hcn : ¬(c = '\n') := by simpa using hnl.1
    rw [hasSub] at hsub
    rcases Bool.or_eq_false_iff.mp hsub with ⟨hpre, hrest⟩
    have hrec := ih rest hrest hnl.2
    cases t with
    | nil =>
      simp only [List.cons_append, List.nil_append] at hrec ⊢
      rw [findClose, if_neg hcn, if_neg (by simp [hqr])]
      rw [hrec]
      rfl
    | cons d t2 =>
      have hd : ¬((c == q && d == ')') = true) := by
        intro hcd
        simp only [Bool.and_eq_true, beq_iff_eq] at hcd
        simp [List.isPrefixOf, hcd.1, hcd.2] at hpre
      simp only [List.cons_append] at hrec ⊢
      rw [findClose, if_neg hcn, if_neg hd]
      rw [hrec]
      rfl

theorem tryTextPat_exact (pat : List Char) (q : Char) (hq : q = '\'' ∨ q = '"')
    (t rest : List Char) (ht1 : hasSub [q, ')'] t = false)
    (ht2 : t.all (fun c => !(c = '\n')) = true) :
    tryTextPat pat (pat ++ (q :: (t ++ q :: ')' :: rest))) = some (q, t, rest) := by
  have hqq : (q = '\'' || q = '"') = true := by
    rcases hq with h | h <;> simp [h]
  unfold tryTextPat
  rw [isPrefixOf_append_self, List.drop_left, if_pos rfl]
  simp only [hqq]
  rw [if_pos trivial, findClose_exact q hq t rest ht1 ht2]
  rfl

theorem hasSub_append_self (pat rest : List Char) :
    hasSub pat (pat ++ rest) = true := by
  cases hp : pat ++ rest with
  | nil =>
    have hpn : pat = [] := by
      cases pat
      · rfl
      · simp at hp
    subst hpn
    simp_all [hasSub]
  | cons c cs =>
    rw [hasSub, ← hp, isPrefixOf_append_self]
    rfl

/-- If `pat = init ++ [lastc]` does not occur in `(c :: pre) ++ init`, then it
is not a prefix of `(c :: pre) ++ (pat ++ tail)`: an occurrence at the very
start would fit inside the first `|pre| + 1 + |init|` characters. -/
theorem not_pre_of_no_sub (pat init : List Char) (lastc : Char)
    (hsplit : pat = init ++ [lastc]) (c : Char) (pre tail : List Char)
    (h : hasSub pat ((c :: pre) ++ init) = false) :
    pat.isPrefixOf ((c :: pre) ++ (pat ++ tail)) = false := by
  by_contra hc
  rw [Bool.not_eq_false] at hc
  have hshape : (c :: pre) ++ (pat ++ tail) =
      ((c :: pre) ++ init) ++ ([lastc] ++ tail) := by
    rw [hsplit]
    simp
  rw [hshape] at hc
  have hlen : pat.length ≤ ((c :: pre) ++ init).length := by
    rw [hsplit]
    simp
  have hpre2 := isPrefixOf_append_of_le pat _ _ hc hlen
  rw [List.cons_append, hasSub] at h
  rcases Bool.or_eq_false_iff.mp h with ⟨h1, _⟩
  rw [List.cons_append] at hpre2
  rw [h1] at hpre2
  cases hpre2

theorem searchPat_pre (pat init : List Char) (lastc : Char)
    (hsplit : pat = init ++ [lastc]) :
    ∀ (pre rest : List Char), hasSub pat (pre ++ init) = false →
      searchPat pat (pre ++ (pat ++ rest)) = searchPat pat (pat ++ rest) := by
  intro pre
  induction pre with
  | nil => intro rest _; rfl
  | cons c pre ih =>
    intro rest hpre
    have hnone : tryTextPat pat ((c :: pre) ++ (pat ++ rest)) = none :=
      tryTextPat_none_of_not_pre (not_pre_of_no_sub pat init lastc hsplit c pre rest hpre)
    rw [List.cons_append] at hnone ⊢
    rw [searchPat_cons pat c _ hnone]
    apply ih
    rw [List.cons_append, hasSub] at hpre
    exact (Bool.or_eq_false_iff.mp hpre).2

theorem searchPat_exact (pat init : List Char) (lastc : Char)
    (hsplit : pat = init ++ [lastc]) (q : Char) (hq : q = '\'' ∨ q = '"')
    (t rest pre : List Char) (hpre : hasSub pat (pre ++ init) = false)
    (ht1 : hasSub [q, ')'] t = false)
    (ht2 : t.all (fun c => !(c = '\n')) = true) :
    searchPat pat (pre ++ (pat ++ (q :: (t ++ q :: ')' :: rest)))) = some t := by
  rw [searchPat_pre pat init lastc hsplit pre _ hpre]
  have hx := tryTextPat_exact pat q hq t rest ht1 ht2
  cases hp : pat with
  | nil => simp [hsplit] at hp
  | cons p0 ps =>
    rw [hp] at hx
    rw [List.cons_append] at hx ⊢
    rw [searchPat, hx]

theorem replaceContainsL_id (s : List Char) (h : hasSub containsPat s = false) :
    replaceContainsL s = s := by
  induction s with
  | nil => rw [replaceContainsL]
  | cons c cs ih =>
    rw [hasSub] at h
    rcases Bool.or_eq_false_iff.mp h with ⟨hpre, hrest⟩
    have hnone := tryTextPat_none_of_not_pre hpre
    rw [replaceContainsL]
    split
    · next x heq => rw [hnone] at heq; cases heq
    · rw [ih hrest]

/-- The `init`/`lastc` split of `:contains(`. -/
theorem containsPat_split : containsPat = ":contains".data ++ ['('] := by decide

/-- The exact effect of `_replace_contains` on a selector of the form
`<pre>:contains(<q><t><q>)<rest>`: provided `:contains(` does not occur
earlier (including spanning into the occurrence), the fragment is clean (no
`<q>)` inside and no newline), the occurrence is rewritten to
`:has-text("<t with " escaped>")` and scanning continues on `<rest>`. -/
theorem replaceContainsL_exact :
    ∀ (pre t rest : List Char) (q : Char), (q = '\'' ∨ q = '"') →
      hasSub containsPat (pre ++ ":contains".data) = false →
      hasSub [q, ')'] t = false →
      t.all (fun c => !(c = '\n')) = true →
      replaceContainsL (pre ++ (containsPat ++ (q :: (t ++ q :: ')' :: rest)))) =
        pre ++ (hasTextPat ++ '"' :: escDQ t ++ '"' :: ')' :: replaceContainsL rest) := by
  intro pre
  induction pre with
  | nil =>
    intro t rest q hq _ ht1 ht2
    have hx := tryTextPat_exact containsPat q hq t rest ht1 ht2
    simp only [List.nil_append]
    have harg : containsPat ++ (q :: (t ++ q :: ')' :: rest)) =
        ':' :: ("contains(".data ++ (q :: (t ++ q :: ')' :: rest))) := rfl
    rw [harg] at hx ⊢
    rw [replaceContainsL]
    split
    · next x heq =>
      rw [hx] at heq
      cases heq
      rfl
    · next hnone => rw [hx] at hnone; cases hnone
  | cons c pre ih =>
    intro t rest q hq hpre ht1 ht2
    have hnone : tryTextPat containsPat
        ((c :: pre) ++ (containsPat ++ (q :: (t ++ q :: ')' :: rest)))) = none :=
      tryTextPat_none_of_not_pre
        (not_pre_of_no_sub containsPat ":contains".data '(' containsPat_split c pre _ hpre)
    rw [List.cons_append] at hnone ⊢
    rw [replaceContainsL]
    split
    · next x heq => rw [hnone] at heq; cases heq
    · rw [ih t rest q hq ?hp ht1 ht2]
      case hp =>
        rw [List.cons_append, hasSub] at hpre
        exact (Bool.or_eq_false_iff.mp hpre).2
      rw [List.cons_append]

/-- The flattened two-level "name" form produced by
`_flatten_inventory_selector` for fragment `τ`. -/
def normOutName (τ : String) : String :=
  ".inventory_item:has-text(\"" ++ τ ++ "\") .inventory_item_name"

theorem normOutName_data (τ : String) :
    (normOutName τ).data =
      ".inventory_item".data ++
        (hasTextPat ++ ('"' :: (τ.data ++ '"' :: ')' :: " .inventory_item_name".data))) := by
  obtain ⟨d⟩ := τ
  rfl

theorem replace_contains_id_str (s : String)
    (h : hasSub containsPat s.data = false) : replace_contains s = s := by
  unfold replace_contains
  rw [replaceContainsL_id s.data h]

theorem hasSub_cons_right (pat : List Char) (c : Char) (cs : List Char)
    (h : hasSub pat cs = true) : hasSub pat (c :: cs) = true := by
  rw [hasSub, h]
  simp

theorem hasSub_normOut (pat : List Char) (τ : String)
    (h : hasSub pat " .inventory_item_name".data = true) :
    hasSub pat (normOutName τ).data = true := by
  rw [normOutName_data]
  apply hasSub_append_right
  apply hasSub_append_right
  apply hasSub_cons_right
  apply hasSub_append_right
  apply hasSub_cons_right
  apply hasSub_cons_right
  exact h

theorem text_from_normOutName (τ : String)
    (ht1 : hasSub ['"', ')'] τ.data = false)
    (ht2 : τ.data.all (fun c => !(c = '\n')) = true) :
    text_from_selector (normOutName τ) = some τ := by
  unfold text_from_selector
  have hs := searchPat_exact hasTextPat ":has-text".data '(' (by decide) '"'
    (Or.inr rfl) τ.data " .inventory_item_name".data ".inventory_item".data
    (by decide) ht1 ht2
  rw [normOutName_data, hs]

theorem flatten_shape (sel τ : String)
    (h1 : text_from_selector (replace_contains sel) = some τ)
    (h2 : τ.isEmpty = false)
    (h3 : hasSubS ".inventory_item" (replace_contains sel) = true)
    (h4 : wants_name_flat (replace_contains sel) = true) :
    flatten_inventory_selector sel = normOutName τ := by
  unfold flatten_inventory_selector
  simp only [h1, h2, h3, h4, Bool.not_false, Bool.true_and, Bool.and_true,
    Bool.and_self, Bool.true_or, if_true]
  apply String.ext
  have e : ("\") ".data ++ ".inventory_item_name".data : List Char) =
      "\") .inventory_item_name".data := by decide
  simp only [String.data_append, List.append_assoc, e, normOutName]

theorem normalize_fix_normOut (τ : String)
    (h2 : τ.isEmpty = false)
    (ht1 : hasSub ['"', ')'] τ.data = false)
    (ht2 : τ.data.all (fun c => !(c = '\n')) = true)
    (hnc : hasSub containsPat (normOutName τ).data = false) :
    normalize (normOutName τ) = normOutName τ := by
  unfold normalize
  have hid := replace_contains_id_str (normOutName τ) hnc
  apply flatten_shape
  · rw [hid]
    exact text_from_normOutName τ ht1 ht2
  · exact h2
  · rw [hid]
    unfold hasSubS
    rw [normOutName_data]
    exact hasSub_append_self ".inventory_item".data _
  · rw [hid]
    unfold wants_name_flat hasSubS
    rw [hasSub_normOut ".inventory_item_name".data τ (by decide)]
    simp

/-! ## Claim theorems for selector normalization (C5, C6, C10) -/

/-- C5 (amended, idempotency part conditional — see `C5_counterexample`):
whenever the normalization path sees a non-empty fragment, the
`.inventory_item` card scope and a name token (the conditions of
`_flatten_inventory_selector`), the output is exactly
`.inventory_item:has-text("<fragment>") .inventory_item_name`; re-normalizing
that output is the identity provided the fragment contains no `"` followed by
`)`, no newline, and introduces no `:contains(` occurrence into the output. -/
theorem C5_flatten_name (sel τ : String)
    (h1 : text_from_selector (replace_contains sel) = some τ)
    (h2 : τ.isEmpty = false)
    (h3 : hasSubS ".inventory_item" (replace_contains sel) = true)
    (h4 : wants_name_flat (replace_contains sel) = true) :
    normalize sel = normOutName τ ∧
    (hasSub ['"', ')'] τ.data = false →
     τ.data.all (fun c => !(c = '\n')) = true →
     hasSub containsPat (normOutName τ).data = false →
     normalize (normalize sel) = normalize sel) := by
  have hshape : normalize sel = normOutName τ := flatten_shape sel τ h1 h2 h3 h4
  refine ⟨hshape, fun ht1 ht2 hnc => ?_⟩
  rw [hshape]
  exact normalize_fix_normOut τ h2 ht1 ht2 hnc

/-- Witness for C5 at a concrete selector. -/
theorem C5_flatten_name_witness :
    normalize ".inventory_item:has-text(\"Backpack\") name" =
      normOutName "Backpack" ∧
    normalize (normalize ".inventory_item:has-text(\"Backpack\") name") =
      normalize ".inventory_item:has-text(\"Backpack\") name" := by
  have hid : replace_contains ".inventory_item:has-text(\"Backpack\") name" =
      ".inventory_item:has-text(\"Backpack\") name" :=
    replace_contains_id_str _ (by decide)
  have h := C5_flatten_name ".inventory_item:has-text(\"Backpack\") name" "Backpack"
    (by rw [hid]; decide) (by decide) (by rw [hid]; decide) (by rw [hid]; decide)
  exact ⟨h.1, h.2 (by decide) (by decide) (by decide)⟩

/-- C5 counterexample: the selector `.inventory_item:has-text('a") b') name`
satisfies the claim's hypotheses (item-card scope, has-text fragment `a") b`,
name token), yet normalization is not idempotent on its output: the fragment
contains `")`, so re-normalizing re-extracts a shorter fragment and yields a
different string. -/
theorem C5_counterexample :
    text_from_selector
        (replace_contains ".inventory_item:has-text('a\") b') name") =
      some "a\") b" ∧
    hasSubS ".inventory_item"
        (replace_contains ".inventory_item:has-text('a\") b') name") = true ∧
    wants_name_flat
        (replace_contains ".inventory_item:has-text('a\") b') name") = true ∧
    normalize (normalize ".inventory_item:has-text('a\") b') name") ≠
      normalize ".inventory_item:has-text('a\") b') name" := by
  have hid : replace_contains ".inventory_item:has-text('a\") b') name" =
      ".inventory_item:has-text('a\") b') name" :=
    replace_contains_id_str _ (by decide)
  have e1 : normalize ".inventory_item:has-text('a\") b') name" =
      ".inventory_item:has-text(\"a\") b\") .inventory_item_name" := by
    unfold normalize flatten_inventory_selector
    simp only [hid]
    decide
  have hid2 : replace_contains
      ".inventory_item:has-text(\"a\") b\") .inventory_item_name" =
      ".inventory_item:has-text(\"a\") b\") .inventory_item_name" :=
    replace_contains_id_str _ (by decide)
  have e2 : normalize ".inventory_item:has-text(\"a\") b\") .inventory_item_name" =
      ".inventory_item:has-text(\"a\") .inventory_item_name" := by
    unfold normalize flatten_inventory_selector
    simp only [hid2]
    decide
  refine ⟨by rw [hid]; decide, by rw [hid]; decide, by rw [hid]; decide, ?_⟩
  rw [e1, e2]
  decide

/-- C6: rewriting a `:contains(<q>X<q>)` fragment (single- or double-quoted):
whenever `:contains(` does not occur earlier in the selector and the fragment
is matched exactly (no quote-close pair or newline inside), `_replace_contains`
rewrites that fragment to `:has-text("X")` with the identical fragment text,
escaping embedded double quotes, and rewriting continues on the rest. -/
theorem C6_contains_rewrite (pre t rest : String) (q : Char)
    (hq : q = '\'' ∨ q = '"')
    (hpre : hasSub containsPat (pre.data ++ ":contains".data) = false)
    (ht1 : hasSub [q, ')'] t.data = false)
    (ht2 : t.data.all (fun c => !(c = '\n')) = true) :
    replace_contains
        ⟨pre.data ++ (containsPat ++ (q :: (t.data ++ q :: ')' :: rest.data)))⟩ =
      ⟨pre.data ++
        (hasTextPat ++ '"' :: escDQ t.data ++ '"' :: ')' ::
          replaceContainsL rest.data)⟩ := by
  unfold replace_contains
  rw [show (⟨pre.data ++ (containsPat ++ (q :: (t.data ++ q :: ')' :: rest.data)))⟩ :
      String).data = pre.data ++ (containsPat ++ (q :: (t.data ++ q :: ')' :: rest.data)))
    from rfl]
  rw [replaceContainsL_exact pre.data t.data rest.data q hq hpre ht1 ht2]

/-- Witness for C6 at a concrete selector with a single-quoted fragment. -/
theorem C6_contains_rewrite_witness :
    replace_contains "li:contains('Sauce') .x" = "li:has-text(\"Sauce\") .x" := by
  have h := C6_contains_rewrite "li" "Sauce" " .x" '\'' (Or.inl rfl)
    (by decide) (by decide) (by decide)
  rw [replaceContainsL_id " .x".data (by decide)] at h
  have e1 : (⟨"li".data ++ (containsPat ++
      ('\'' :: ("Sauce".data ++ '\'' :: ')' :: " .x".data)))⟩ : String) =
      "li:contains('Sauce') .x" := by decide
  have e2 : (⟨"li".data ++ (hasTextPat ++ '"' :: escDQ "Sauce".data ++ '"' :: ')' ::
      " .x".data)⟩ : String) = "li:has-text(\"Sauce\") .x" := by decide
  rw [e1, e2] at h
  exact h

/-- C10: when the flattening conditions hold and the selector references both
a name and a price token, both the flattened selector and the
Playwright-filter extraction path select the name sub-field
`.inventory_item_name`, never the price sub-field. -/
theorem C10_name_wins (sel τ : String)
    (h1 : text_from_selector (replace_contains sel) = some τ)
    (h2 : τ.isEmpty = false)
    (h3 : hasSubS ".inventory_item" (replace_contains sel) = true)
    (h4 : wants_name_flat (replace_contains sel) = true)
    (h5 : wants_price_flat (replace_contains sel) = true)
    (ht1 : hasSub ['"', ')'] τ.data = false)
    (ht2 : τ.data.all (fun c => !(c = '\n')) = true) :
    flatten_inventory_selector sel = normOutName τ ∧
    pw_target sel = .filtered τ (some ".inventory_item_name") := by
  have hshape : flatten_inventory_selector sel = normOutName τ :=
    flatten_shape sel τ h1 h2 h3 h4
  refine ⟨hshape, ?_⟩
  unfold pw_target
  have hnorm : normalize sel = normOutName τ := hshape
  simp only [hnorm]
  rw [text_from_normOutName τ ht1 ht2]
  have hitem : hasSubS ".inventory_item" (normOutName τ) = true := by
    unfold hasSubS
    rw [normOutName_data]
    exact hasSub_append_self ".inventory_item".data _
  have hname : hasSubS "inventory_item_name" (normOutName τ) = true := by
    unfold hasSubS
    exact hasSub_normOut "inventory_item_name".data τ (by decide)
  simp only [h2, hitem, hname, Bool.not_false, Bool.true_and, Bool.and_true,
    Bool.true_or, if_true]

/-- Witness for C10 at a concrete selector referencing both tokens. -/
theorem C10_name_wins_witness :
    flatten_inventory_selector ".inventory_item:has-text(\"Backpack\") name price" =
      normOutName "Backpack" ∧
    pw_target ".inventory_item:has-text(\"Backpack\") name price" =
      .filtered "Backpack" (some ".inventory_item_name") := by
  have hid : replace_contains ".inventory_item:has-text(\"Backpack\") name price" =
      ".inventory_item:has-text(\"Backpack\") name price" :=
    replace_contains_id_str _ (by decide)
  exact C10_name_wins ".inventory_item:has-text(\"Backpack\") name price" "Backpack"
    (by rw [hid]; decide) (by decide) (by rw [hid]; decide) (by rw [hid]; decide)
    (by rw [hid]; decide) (by decide) (by decide)

/-! ## Plan loading and execution (`robotAI.py`, lines 27-51 and 204-289)

The browser is external: what one `run_step` call does on the live page is an
oracle (`StepOutcome` per 1-indexed step).  `str.format` on the plan's
`final_report` template plus the `json.loads` validation of its output is the
`FmtOracle`.  Stdout is a list of `OutLine`s: ordinary `print` text, or a
line printed as the JSON dump of a value.  `setup_logging`
(logging_config.py) routes the root logger to `sys.stdout` too, so the
transcript also carries the log records execute_plan emits at the default
level INFO (`logRec`); the rendering of Python values inside plain lines
(`pyStrShallow`) and of log records is cosmetic — no claim inspects those
strings — and renders containers shallowly. -/

/-- ASCII whitespace as stripped by Python `str.strip` (the model restricts
itself to ASCII text). -/
def isSpaceC (c : Char) : Bool :=
  c = ' ' || c = '\t' || c = '\n' || c = '\r' || c = '\x0b' || c = '\x0c'

/-- Python `str.strip()` on a character list. -/
def stripL (cs : List Char) : List Char :=
  ((cs.dropWhile isSpaceC).reverse.dropWhile isSpaceC).reverse

/-- The plan file as the runner sees it: missing, or present with its text
and the outcome of `json.loads` on it. -/
inductive FileInput where
  | missing
  | present (raw : String) (parsed : Option Json)

/-- A validated plan: the document's key/value list and its `steps` list. -/
structure Plan where
  kvs : List (String × Json)
  steps : List Json

/-- `load_plan_or_die` (lines 27-51): exit code 2 (`.error 2`) when the file
is missing, its text is empty after stripping, it is not valid JSON, or the
document is not a dict with a list-valued `steps` key; otherwise the plan. -/
def load_plan_or_die : FileInput → Except Nat Plan
  | .missing => .error 2
  | .present raw parsed =>
    if (stripL raw.data).isEmpty then .error 2
    else
      match parsed with
      | none => .error 2
      | some (.obj kvs) =>
        match jGet kvs "steps" with
        | some (.arr steps) => .ok ⟨kvs, steps⟩
        | _ => .error 2
      | some _ => .error 2

/-- The spec's list of fatal plan-load conditions (claim C7): the file is
missing, its text is empty after stripping, it is not valid JSON, or the
parsed document has no list-valued `steps` key. -/
def loadFatal : FileInput → Bool
  | .missing => true
  | .present raw parsed =>
    (stripL raw.data).isEmpty ||
      (match parsed with
       | none => true
       | some (.obj kvs) =>
         (match jGet kvs "steps" with
          | some (.arr _) => false
          | _ => true)
       | some _ => true)

/-- Did plan loading succeed? -/
def exceptOk : Except Nat Plan → Bool
  | .ok _ => true
  | .error _ => false

/-- What one `run_step` call does, as decided by the live page: return
normally (`v` is the text read, `none` for tools that return nothing), raise
`playwright.TimeoutError`, or raise any other exception. -/
inductive StepOutcome where
  | ret (v : Option String)
  | timeout (msg : String)
  | fail (msg : String)

/-- A hashable Python dict key as used for ExtractedValues.  (Truthiness
filtering means `None` never reaches the dict; JSON plans do not mix ids like
`1` and `True`, so `PyKey` equality is structural.) -/
inductive PyKey where
  | str (s : String)
  | int (n : Int)
  | bool (b : Bool)
deriving DecidableEq

/-- Which JSON ids are hashable, and their key identity; `none` stands for
the unhashable list/dict ids, whose assignment raises `TypeError`.  (`null`
is hashable but filtered out by truthiness before this point.) -/
def toKey : Json → Option PyKey
  | .str s => some (.str s)
  | .num n => some (.int n)
  | .bool b => some (.bool b)
  | .null => some (.str "null")
  | .arr _ => none
  | .obj _ => none

/-- `json.dumps` coercion of a non-string dict key to a JSON object key. -/
def keyStr : PyKey → String
  | .str s => s
  | .int n => toString n
  | .bool true => "true"
  | .bool false => "false"

/-- Python `str()` of a dict key, for log lines. -/
def keyPrint : PyKey → String
  | .str s => s
  | .int n => toString n
  | .bool true => "True"
  | .bool false => "False"

/-- Python dict assignment `d[k] = v`: overwrite in place, else append. -/
def dictSet (d : List (PyKey × String)) (k : PyKey) (v : String) :
    List (PyKey × String) :=
  match d with
  | [] => [(k, v)]
  | (k2, v2) :: rest => if k2 = k then (k, v) :: rest else (k2, v2) :: dictSet rest k v

/-- `_get_step_id` (lines 142-149): the step-level `id` if the key is
present (even when its value is `None`), else `args["id"]` when `args` is a
dict with that key, else nothing. -/
def get_step_id (stepKvs : List (String × Json)) : Option Json :=
  match jGet stepKvs "id" with
  | some v => some v
  | none =>
    match jGet stepKvs "args" with
    | some (.obj argKvs) => jGet argKvs "id"
    | _ => none

/-- One stdout line: ordinary text, or the JSON dump of a value. -/
inductive OutLine where
  | log (s : String)
  | json (v : Json)

/-- Is a stdout line a printed JSON value? -/
def isJsonLine : OutLine → Bool
  | .json _ => true
  | .log _ => false

/-- Cosmetic `str()` rendering of a JSON-shaped value for log lines
(containers rendered shallowly; no claim reads these strings). -/
def pyStrShallow : Json → String
  | .null => "None"
  | .bool true => "True"
  | .bool false => "False"
  | .num n => toString n
  | .str s => s
  | .arr _ => "[...]"
  | .obj _ => "\x7b...\x7d"

/-- A record the logging handler writes to stdout: `setup_logging`
(logging_config.py) attaches a `StreamHandler(sys.stdout)` to the root
logger at the default level INFO with the development format
`"<asctime> - <name> - <level> - <message>"`.  The volatile timestamp and
the logger name are elided here — no claim reads log text — but such a
line starts with a timestamp, never with a brace, so it is a plain
`OutLine.log` and never a JSON document.  (`logger.debug` records are
suppressed at level INFO and never printed; under the non-default
`ENVIRONMENT=production` the JSONFormatter would instead emit JSON log
lines, so the transcript and the JSON-line-count properties below are
scoped to the repository's default development configuration.) -/
def logRec (level msg : String) : OutLine := .log (level ++ " - " ++ msg)

/-- The mutable state of the step loop of `execute_plan`: stdout so far, the
ExtractedValues dict, the error flag and message, and (instrumentation for
the abort property) how many loop iterations were entered. -/
structure LoopState where
  lines : List OutLine
  extracted : List (PyKey × String)
  hadError : Bool
  errorMessage : Option String
  attempted : Nat

/-- The `for i, step in enumerate(plan["steps"], start=1)` loop of
`execute_plan` (lines 221-245).  `.error st` models an exception escaping
the loop: a step that is not a dict, or has no `tool` key, raises while the
`step_info` f-string indexes `step['tool']` — before the inner `try` — so
nothing catches it.  Inside the `try`, the oracle decides `run_step`; a
timeout or other fault sets the error state, prints the `Error:` line and
breaks; on a normal return an `extract_text` step with a truthy resolvable
id records the value (an unhashable id raises `TypeError` at the dict
assignment, caught by `except Exception` as a step fault).  Each print is
preceded by the corresponding stdout log record (lines 223, 232, 237,
243).  `run_step`'s own stdout writes — the selector-normalization notices
and the unknown-tool notice, plus their WARNING records — fall between a
step's header lines and its outcome lines; they are plain text, never
JSON, and the transcript elides them: every transcript property proved
below reads only the JSON-line count and the lines after the report,
which those elided lines cannot affect. -/
def stepLoop (oracle : Nat → StepOutcome) :
    List Json → Nat → LoopState → Except LoopState LoopState
  | [], _, st => .ok st
  | step :: rest, i, st =>
    match step with
    | .obj stepKvs =>
      match jGet stepKvs "tool" with
      | none => .error { st with attempted := st.attempted + 1 }
      | some toolJ =>
        let info := "Step " ++ toString i ++ ": " ++ pyStrShallow toolJ ++ " " ++
          pyStrShallow ((jGet stepKvs "args").getD (.obj []))
        let st1 : LoopState :=
          { st with
            lines := st.lines ++ [logRec "INFO" info, .log info],
            attempted := st.attempted + 1 }
        match oracle i with
        | .timeout m =>
          .ok { st1 with
            hadError := true,
            errorMessage := some ("Timeout: " ++ m),
            lines := st1.lines ++
              [logRec "ERROR" ("Step " ++ toString i ++ " failed: Timeout: " ++ m),
               .log ("Error: Timeout: " ++ m)] }
        | .fail m =>
          .ok { st1 with
            hadError := true,
            errorMessage := some m,
            lines := st1.lines ++
              [logRec "ERROR" ("Step " ++ toString i ++ " failed: " ++ m),
               .log ("Error: " ++ m)] }
        | .ret v =>
          if jIsStr toolJ "extract_text" then
            match get_step_id stepKvs with
            | some idJ =>
              if pyTruthy idJ then
                match toKey idJ with
                | some k =>
                  let value := v.getD ""
                  stepLoop oracle rest (i + 1)
                    { st1 with
                      extracted := dictSet st1.extracted k value,
                      lines := st1.lines ++
                        [logRec "INFO" ("Captured " ++ pyStrShallow idJ ++ " = " ++ value),
                         .log ("[captured] " ++ pyStrShallow idJ ++ " = " ++ value)] }
                | none =>
                  .ok { st1 with
                    hadError := true,
                    errorMessage := some "unhashable type",
                    lines := st1.lines ++
                      [logRec "ERROR" ("Step " ++ toString i ++ " failed: unhashable type"),
                       .log "Error: unhashable type"] }
              else stepLoop oracle rest (i + 1) st1
            | none => stepLoop oracle rest (i + 1) st1
          else stepLoop oracle rest (i + 1) st1
    | _ => .error { st with attempted := st.attempted + 1 }

/-- The outcome of `final_report.format(**extracted)` followed by
`json.loads` validation: `some v` when both succeed with parsed value `v`,
`none` when either raises (external string formatting, hence an oracle). -/
def FmtOracle : Type := String → List (PyKey × String) → Option Json

/-- The template branch of the reporting block (lines 256-267): only a
truthy string template is attempted, and the `FmtOracle` decides whether a
valid JSON line came out of it. -/
def templateReport (planKvs : List (String × Json)) (fmt : FmtOracle)
    (extracted : List (PyKey × String)) : Option Json :=
  match jGet planKvs "final_report" with
  | some (.str t) => if !(stripL t.data).isEmpty then fmt t extracted else none
  | _ => none

/-- Was the template branch attempted at all — a truthy string
`final_report` (line 257)?  When it was attempted and then failed, line
265 logs a WARNING record before falling through. -/
def templTruthy (planKvs : List (String × Json)) : Bool :=
  match jGet planKvs "final_report" with
  | some (.str t) => !(stripL t.data).isEmpty
  | _ => false

/-- The ExtractedValues dict as a JSON object (dumps coerces non-string
keys). -/
def extractedJson (extracted : List (PyKey × String)) : Json :=
  .obj (extracted.map (fun kv => (keyStr kv.1, .str kv.2)))

/-- Truthiness of the `error_message` local. -/
def msgTruthy : Option String → Bool
  | some m => !m.isEmpty
  | none => false

/-- The fallback payload (lines 270-275): goal and extracted always,
`error` only when an error occurred, its message is truthy, and nothing was
extracted. -/
def fallbackPayload (planKvs : List (String × Json)) (st : LoopState) : Json :=
  .obj
    ([("goal", (jGet planKvs "goal").getD .null),
      ("extracted", extractedJson st.extracted)] ++
     (if st.hadError && msgTruthy st.errorMessage && st.extracted.isEmpty then
        [("error", .str (st.errorMessage.getD ""))]
      else []))

/-- The completed run: stdout, final state, which report was printed. -/
structure RunOut where
  lines : List OutLine
  extracted : List (PyKey × String)
  hadError : Bool
  errorMessage : Option String
  attempted : Nat
  report : Option Json
  usedFallbackReport : Bool

/-- The reporting block of `execute_plan` (lines 247-275): log and echo the
captured values as `key: value` lines when any exist (lines 250-253), then
print exactly one JSON line — the formatted template when it renders and
validates, else (after the WARNING record of line 265 when a template was
attempted and failed) the fallback payload. -/
def reporting (planKvs : List (String × Json)) (fmt : FmtOracle)
    (st : LoopState) : RunOut :=
  let lines1 :=
    if st.extracted.isEmpty then st.lines
    else st.lines ++
      [logRec "INFO" ("Extracted " ++ toString st.extracted.length ++ " values"),
       .log "\n--- Extracted Values ---"] ++
      st.extracted.map (fun kv => .log (keyPrint kv.1 ++ ": " ++ kv.2))
  match templateReport planKvs fmt st.extracted with
  | some v =>
    { lines := lines1 ++ [.json v], extracted := st.extracted,
      hadError := st.hadError, errorMessage := st.errorMessage,
      attempted := st.attempted, report := some v, usedFallbackReport := false }
  | none =>
    let payload := fallbackPayload planKvs st
    { lines := lines1 ++
        (if templTruthy planKvs then
          [logRec "WARNING" "Failed to format final_report"] else []) ++
        [.json payload],
      extracted := st.extracted,
      hadError := st.hadError, errorMessage := st.errorMessage,
      attempted := st.attempted, report := some payload,
      usedFallbackReport := true }

/-- How one whole process run ends: load failure (exit 2), an exception
escaping `execute_plan` (traceback, exit 1), or a normal return (exit 0). -/
inductive ProgOutcome where
  | loadFailed
  | crashed (out : RunOut)
  | completed (out : RunOut)

/-- `execute_plan` after a successful load (lines 206-281): the load
success and start-of-execution records (load_plan_or_die line 50, line
208), the goal record and print (lines 218-219), the step loop, the
reporting block, and — in the guaranteed `finally` block, whether or not
an exception is escaping — the `Closing browser` record (line 278)
followed by the final `Closing browser...` print (line 279). -/
def execute_loaded (oracle : Nat → StepOutcome) (fmt : FmtOracle)
    (planKvs : List (String × Json)) (steps : List Json) : ProgOutcome :=
  let st0 : LoopState :=
    { lines := [logRec "INFO" "Plan loaded successfully",
        logRec "INFO" "Starting plan execution",
        logRec "INFO" ("Goal: " ++
          pyStrShallow ((jGet planKvs "goal").getD (.str "(none)"))),
        .log ("Goal: " ++
          pyStrShallow ((jGet planKvs "goal").getD (.str "(none)")))],
      extracted := [], hadError := false, errorMessage := none, attempted := 0 }
  match stepLoop oracle steps 1 st0 with
  | .ok st =>
    let out := reporting planKvs fmt st
    .completed { out with lines := out.lines ++
      [logRec "INFO" "Closing browser", .log "Closing browser..."] }
  | .error st =>
    .crashed
      { lines := st.lines ++
          [logRec "INFO" "Closing browser", .log "Closing browser..."],
        extracted := st.extracted, hadError := st.hadError,
        errorMessage := st.errorMessage, attempted := st.attempted,
        report := none, usedFallbackReport := false }

/-- The whole runner process: load (exiting 2 on a bad plan file), then
execute. -/
def run_robot (oracle : Nat → StepOutcome) (fmt : FmtOracle)
    (file : FileInput) : ProgOutcome :=
  match load_plan_or_die file with
  | .error _ => .loadFailed
  | .ok plan => execute_loaded oracle fmt plan.kvs plan.steps

/-- Process exit code of an outcome (an uncaught Python exception exits 1). -/
def exit_code : ProgOutcome → Nat
  | .loadFailed => 2
  | .crashed _ => 1
  | .completed _ => 0

/-- A structurally valid step: a dict with a `tool` key (anything else makes
the `step_info` f-string raise outside the inner `try`). -/
def wfStep (step : Json) : Bool :=
  match step with
  | .obj kvs => (jGet kvs "tool").isSome
  | _ => false

/-- The stdout lines of an outcome. -/
def outLines : ProgOutcome → List OutLine
  | .loadFailed => []
  | .crashed out => out.lines
  | .completed out => out.lines

/-- The capture a step contributes when `run_step` returns `v` normally:
an `extract_text` tool with a truthy, hashable resolvable id. -/
def captureOf (stepKvs : List (String × Json)) (v : Option String) :
    Option (PyKey × String) :=
  match jGet stepKvs "tool" with
  | some toolJ =>
    if jIsStr toolJ "extract_text" then
      match get_step_id stepKvs with
      | some idJ =>
        if pyTruthy idJ then (toKey idJ).map (fun k => (k, v.getD ""))
        else none
      | none => none
    else none
  | none => none

/-- The union (in execution order, overwriting per key) of the captures of a
run of steps on which `run_step` returns normally, starting at index `i`. -/
def captures (oracle : Nat → StepOutcome) :
    List Json → Nat → List (PyKey × String) → List (PyKey × String)
  | [], _, acc => acc
  | step :: rest, i, acc =>
    match step with
    | .obj kvs =>
      match oracle i with
      | .ret v =>
        match captureOf kvs v with
        | some kv => captures oracle rest (i + 1) (dictSet acc kv.1 kv.2)
        | none => captures oracle rest (i + 1) acc
      | _ => acc
    | _ => acc

/-- Did the run return normally (exit 0)? -/
def isCompleted : ProgOutcome → Bool
  | .completed _ => true
  | _ => false

/-- ExtractedValues after the run. -/
def runExtracted : ProgOutcome → List (PyKey × String)
  | .completed out => out.extracted
  | .crashed out => out.extracted
  | .loadFailed => []

/-- The error flag after the run. -/
def runHadError : ProgOutcome → Bool
  | .completed out => out.hadError
  | .crashed out => out.hadError
  | .loadFailed => false

/-- The recorded error message after the run. -/
def runErrorMessage : ProgOutcome → Option String
  | .completed out => out.errorMessage
  | .crashed out => out.errorMessage
  | .loadFailed => none

/-- The printed report, if one was printed. -/
def runReport : ProgOutcome → Option Json
  | .completed out => out.report
  | .crashed out => out.report
  | .loadFailed => none

/-- How many loop iterations were entered. -/
def runAttempted : ProgOutcome → Nat
  | .completed out => out.attempted
  | .crashed out => out.attempted
  | .loadFailed => 0

/-- Was the printed report the fallback payload (not the template)? -/
def usedFallback : ProgOutcome → Bool
  | .completed out => out.usedFallbackReport
  | .crashed out => out.usedFallbackReport
  | .loadFailed => false

/-- Does a JSON object have a key? -/
def hasKey (j : Json) (k : String) : Bool :=
  match j with
  | .obj kvs => (jGet kvs k).isSome
  | _ => false

/-- Does the printed report have an `error` key? -/
def reportHasError (o : ProgOutcome) : Bool :=
  match runReport o with
  | some r => hasKey r "error"
  | none => false

/-- A step on which the loop cannot fault at the dict assignment: either not
a capturing `extract_text` step, or its id is hashable.  (Structural
validity `wfStep` is required separately.) -/
def stepSafe : Json → Bool
  | .obj kvs =>
    match jGet kvs "tool" with
    | some toolJ =>
      if jIsStr toolJ "extract_text" then
        match get_step_id kvs with
        | some idJ => !pyTruthy idJ || (toKey idJ).isSome
        | none => true
      else true
    | none => false
  | _ => false

/-- Did `run_step` return normally? -/
def StepOutcome.isRet : StepOutcome → Bool
  | .ret _ => true
  | _ => false

theorem append_two (x : List OutLine) (a b : OutLine) :
    (x ++ [a]) ++ [b] = x ++ [a, b] := by simp

theorem append_two_two (x : List OutLine) (a b c d : OutLine) :
    (x ++ [a, b]) ++ [c, d] = x ++ [a, b, c, d] := by simp

theorem stepLoop_cons_cases (oracle : Nat → StepOutcome) (step : Json)
    (rest : List Json) (i : Nat) (st : LoopState) (hwf : wfStep step = true) :
    (∃ st2, stepLoop oracle (step :: rest) i st = stepLoop oracle rest (i + 1) st2 ∧
       ∃ logs, st2.lines = st.lines ++ logs ∧
         logs.all (fun l => !isJsonLine l) = true) ∨
    (∃ st2, stepLoop oracle (step :: rest) i st = .ok st2 ∧
       ∃ logs, st2.lines = st.lines ++ logs ∧
         logs.all (fun l => !isJsonLine l) = true) := by
  cases step with
  | obj kvs =>
    cases htool : jGet kvs "tool" with
    | none => rw [wfStep, htool] at hwf; cases hwf
    | some toolJ =>
      simp only [stepLoop, htool]
      split
      · exact Or.inr ⟨_, rfl, [_, _, _, _], append_two_two _ _ _ _ _, rfl⟩
      · exact Or.inr ⟨_, rfl, [_, _, _, _], append_two_two _ _ _ _ _, rfl⟩
      · split
        · split
          · split
            · split
              · exact Or.inl ⟨_, rfl, [_, _, _, _], append_two_two _ _ _ _ _, rfl⟩
              · exact Or.inr ⟨_, rfl, [_, _, _, _], append_two_two _ _ _ _ _, rfl⟩
            · exact Or.inl ⟨_, rfl, [_, _], rfl, rfl⟩
          · exact Or.inl ⟨_, rfl, [_, _], rfl, rfl⟩
        · exact Or.inl ⟨_, rfl, [_, _], rfl, rfl⟩
  | null => simp [wfStep] at hwf
  | bool b => simp [wfStep] at hwf
  | num n => simp [wfStep] at hwf
  | str s => simp [wfStep] at hwf
  | arr xs => simp [wfStep] at hwf

theorem stepLoop_wf_ok (oracle : Nat → StepOutcome) :
    ∀ (steps : List Json) (i : Nat) (st : LoopState),
      (∀ s ∈ steps, wfStep s = true) →
      ∃ st2, stepLoop oracle steps i st = .ok st2 ∧
        ∃ extra, st2.lines = st.lines ++ extra ∧
          extra.all (fun l => !isJsonLine l) = true := by
  intro steps
  induction steps with
  | nil =>
    intro i st _
    exact ⟨st, rfl, [], by simp, rfl⟩
  | cons step rest ih =>
    intro i st hwf
    have hw := hwf step (List.mem_cons_self step rest)
    rcases stepLoop_cons_cases oracle step rest i st hw with
      ⟨st2, heq, logs, hl, hj⟩ | ⟨st2, heq, logs, hl, hj⟩
    · obtain ⟨st3, heq2, extra2, hl2, hj2⟩ :=
        ih (i + 1) st2 (fun s hs => hwf s (List.mem_cons_of_mem step hs))
      refine ⟨st3, heq ▸ heq2, logs ++ extra2, ?_, ?_⟩
      · rw [hl2, hl, List.append_assoc]
      · simp only [List.all_append, hj, hj2, Bool.and_self]
    · exact ⟨st2, heq, logs, hl, hj⟩

theorem stepLoop_timeout (oracle : Nat → StepOutcome) (step : Json)
    (rest : List Json) (i : Nat) (st : LoopState) (hwf : wfStep step = true)
    (m : String) (ho : oracle i = .timeout m) :
    ∃ logs, stepLoop oracle (step :: rest) i st = .ok
      { lines := st.lines ++ logs, extracted := st.extracted,
        hadError := true, errorMessage := some ("Timeout: " ++ m),
        attempted := st.attempted + 1 } := by
  cases step with
  | obj kvs =>
    cases htool : jGet kvs "tool" with
    | none => rw [wfStep, htool] at hwf; cases hwf
    | some toolJ =>
      simp only [stepLoop, htool, ho]
      exact ⟨[_, _, _, _], by rw [append_two_two]⟩
  | null => simp [wfStep] at hwf
  | bool b => simp [wfStep] at hwf
  | num n => simp [wfStep] at hwf
  | str s => simp [wfStep] at hwf
  | arr xs => simp [wfStep] at hwf

theorem stepLoop_ret_run (oracle : Nat → StepOutcome) :
    ∀ (pre rest : List Json) (i : Nat) (st : LoopState),
      (∀ s ∈ pre, wfStep s = true) →
      (∀ s ∈ pre, stepSafe s = true) →
      (∀ j, j < pre.length → (oracle (i + j)).isRet = true) →
      ∃ st2, stepLoop oracle (pre ++ rest) i st =
          stepLoop oracle rest (i + pre.length) st2 ∧
        st2.extracted = captures oracle pre i st.extracted ∧
        st2.hadError = st.hadError ∧
        st2.errorMessage = st.errorMessage ∧
        st2.attempted = st.attempted + pre.length := by
  intro pre
  induction pre with
  | nil =>
    intro rest i st _ _ _
    exact ⟨st, by simp, by rw [captures], rfl, rfl, by simp⟩
  | cons step pre ih =>
    intro rest i st hwf hsafe hret
    have hw := hwf step (List.mem_cons_self step pre)
    have hs := hsafe step (List.mem_cons_self step pre)
    obtain ⟨v, hov⟩ : ∃ v, oracle i = .ret v := by
      have hr0 := hret 0 (by simp)
      cases hoi : oracle i
      · exact ⟨_, rfl⟩
      · rw [Nat.add_zero, hoi] at hr0; cases hr0
      · rw [Nat.add_zero, hoi] at hr0; cases hr0
    have hwf2 : ∀ s ∈ pre, wfStep s = true :=
      fun s hsm => hwf s (List.mem_cons_of_mem step hsm)
    have hsafe2 : ∀ s ∈ pre, stepSafe s = true :=
      fun s hsm => hsafe s (List.mem_cons_of_mem step hsm)
    have hret2 : ∀ j, j < pre.length → (oracle (i + 1 + j)).isRet = true := by
      intro j hj
      have := hret (j + 1) (by simpa using Nat.succ_lt_succ hj)
      rwa [show i + (j + 1) = i + 1 + j by omega] at this
    have hidx : i + 1 + pre.length = i + (pre.length + 1) := by omega
    cases step with
    | obj kvs =>
      cases htool : jGet kvs "tool" with
      | none => rw [wfStep, htool] at hw; cases hw
      | some toolJ =>
        simp only [List.cons_append, stepLoop, htool, hov]
        split
        case isTrue hext =>
          split
          next idJ hid =>
            split
            case isTrue htr =>
              split
              next k hk =>
                have hcap : captureOf kvs v = some (k, v.getD "") := by
                  simp only [captureOf, htool, hext, hid, htr, hk, if_true]
                  rfl
                obtain ⟨st3, heq, he, hh, hm, ha⟩ := ih rest (i + 1) _ hwf2 hsafe2 hret2
                rw [hidx] at heq
                refine ⟨st3, heq, ?_, hh, hm, by simp at ha ⊢; omega⟩
                simp only [he, captures, hov, hcap]
              next hk =>
                rw [stepSafe, htool] at hs
                simp only [hext, if_true, hid, htr, hk] at hs
                cases hs
            case isFalse htr =>
              have htr2 : pyTruthy idJ = false := by
                revert htr
                cases pyTruthy idJ <;> simp
              have hcap : captureOf kvs v = none := by
                simp only [captureOf, htool, hext, hid, htr2, if_true]
                simp
              obtain ⟨st3, heq, he, hh, hm, ha⟩ := ih rest (i + 1) _ hwf2 hsafe2 hret2
              rw [hidx] at heq
              refine ⟨st3, heq, ?_, hh, hm, by simp at ha ⊢; omega⟩
              simp only [he, captures, hov, hcap]
          next hid =>
            have hcap : captureOf kvs v = none := by
              simp only [captureOf, htool, hext, hid, if_true]
            obtain ⟨st3, heq, he, hh, hm, ha⟩ := ih rest (i + 1) _ hwf2 hsafe2 hret2
            rw [hidx] at heq
            refine ⟨st3, heq, ?_, hh, hm, by simp at ha ⊢; omega⟩
            simp only [he, captures, hov, hcap]
        case isFalse hext =>
          have hcap : captureOf kvs v = none := by
            simp only [captureOf, htool]
            simp only [Bool.not_eq_true] at hext
            simp [hext]
          obtain ⟨st3, heq, he, hh, hm, ha⟩ := ih rest (i + 1) _ hwf2 hsafe2 hret2
          rw [hidx] at heq
          refine ⟨st3, heq, ?_, hh, hm, by simp at ha ⊢; omega⟩
          simp only [he, captures, hov, hcap]
    | null => simp [wfStep] at hw
    | bool b => simp [wfStep] at hw
    | num n => simp [wfStep] at hw
    | str s => simp [wfStep] at hw
    | arr xs => simp [wfStep] at hw

/-- Number of printed JSON lines in a stdout transcript. -/
def countJson (ls : List OutLine) : Nat := (ls.filter isJsonLine).length

theorem filter_json_of_all {ls : List OutLine}
    (h : ls.all (fun l => !isJsonLine l) = true) : ls.filter isJsonLine = [] := by
  induction ls with
  | nil => rfl
  | cons l ls ih =>
    simp only [List.all_cons, Bool.and_eq_true] at h
    have h1 : isJsonLine l = false := by
      have h2 := h.1
      cases hjl : isJsonLine l
      · rfl
      · rw [hjl] at h2; cases h2
    simp [List.filter_cons, h1, ih h.2]

theorem kvLines_all_log (l : List (PyKey × String)) :
    ((l.map fun kv => OutLine.log (keyPrint kv.1 ++ ": " ++ kv.2)).all
      fun o => !isJsonLine o) = true := by
  induction l with
  | nil => rfl
  | cons kv l ih => simpa [isJsonLine] using ih

theorem timeout_msg_truthy (m : String) :
    msgTruthy (some ("Timeout: " ++ m)) = true := by
  unfold msgTruthy
  have hne : ("Timeout: " ++ m) ≠ "" := by
    intro hcon
    have hd := congrArg String.data hcon
    rw [String.data_append] at hd
    simp at hd
  have h2 : ("Timeout: " ++ m).isEmpty = false := by
    cases hie : ("Timeout: " ++ m).isEmpty
    · rfl
    · exact absurd ((String.isEmpty_iff _).mp hie) hne
  simp [h2]

/-- The lines printed by `reporting` are its input lines, some plain log
lines, then exactly one JSON line carrying its report. -/
theorem reporting_lines (planKvs : List (String × Json)) (fmt : FmtOracle)
    (st : LoopState) :
    ∃ mid r, (reporting planKvs fmt st).lines = (st.lines ++ mid) ++ [.json r] ∧
      mid.all (fun l => !isJsonLine l) = true ∧
      (reporting planKvs fmt st).report = some r := by
  unfold reporting
  cases htp : templateReport planKvs fmt st.extracted with
  | some v =>
    by_cases hemp : st.extracted.isEmpty = true
    · exact ⟨[], v, by simp [hemp], rfl, by simp⟩
    · refine ⟨[logRec "INFO" ("Extracted " ++ toString st.extracted.length ++ " values"),
        .log "\n--- Extracted Values ---"] ++
        st.extracted.map (fun kv => OutLine.log (keyPrint kv.1 ++ ": " ++ kv.2)), v,
        by simp [hemp, List.append_assoc], ?_, by simp⟩
      rw [List.all_append, kvLines_all_log]
      rfl
  | none =>
    by_cases hemp : st.extracted.isEmpty = true
    · by_cases hw : templTruthy planKvs = true
      · exact ⟨[logRec "WARNING" "Failed to format final_report"],
          fallbackPayload planKvs st, by simp [hemp, hw], rfl, by simp⟩
      · have hw2 : templTruthy planKvs = false := by
          revert hw
          cases templTruthy planKvs <;> simp
        exact ⟨[], fallbackPayload planKvs st, by simp [hemp, hw2], rfl, by simp⟩
    · by_cases hw : templTruthy planKvs = true
      · refine ⟨([logRec "INFO" ("Extracted " ++ toString st.extracted.length ++ " values"),
          .log "\n--- Extracted Values ---"] ++
          st.extracted.map (fun kv => OutLine.log (keyPrint kv.1 ++ ": " ++ kv.2))) ++
          [logRec "WARNING" "Failed to format final_report"],
          fallbackPayload planKvs st,
          by simp [hemp, hw, List.append_assoc], ?_, by simp⟩
        rw [List.all_append, List.all_append, kvLines_all_log]
        rfl
      · have hw2 : templTruthy planKvs = false := by
          revert hw
          cases templTruthy planKvs <;> simp
        refine ⟨[logRec "INFO" ("Extracted " ++ toString st.extracted.length ++ " values"),
          .log "\n--- Extracted Values ---"] ++
          st.extracted.map (fun kv => OutLine.log (keyPrint kv.1 ++ ": " ++ kv.2)),
          fallbackPayload planKvs st,
          by simp [hemp, hw2, List.append_assoc], ?_, by simp⟩
        rw [List.all_append, kvLines_all_log]
        rfl

/-- Fields of `reporting` other than the lines and report. -/
theorem reporting_fields (planKvs : List (String × Json)) (fmt : FmtOracle)
    (st : LoopState) :
    (reporting planKvs fmt st).extracted = st.extracted ∧
    (reporting planKvs fmt st).hadError = st.hadError ∧
    (reporting planKvs fmt st).errorMessage = st.errorMessage ∧
    (reporting planKvs fmt st).attempted = st.attempted := by
  unfold reporting
  cases htp : templateReport planKvs fmt st.extracted <;> exact ⟨rfl, rfl, rfl, rfl⟩

/-- The report of `reporting` when the template path yields nothing. -/
theorem reporting_fallback (planKvs : List (String × Json)) (fmt : FmtOracle)
    (st : LoopState) (htp : templateReport planKvs fmt st.extracted = none) :
    (reporting planKvs fmt st).report = some (fallbackPayload planKvs st) ∧
    (reporting planKvs fmt st).usedFallbackReport = true := by
  unfold reporting
  rw [htp]
  exact ⟨rfl, rfl⟩

/-! ## Claim theorems for the execution engine (C2, C3, C4, C7) -/

/-- C2 (amended; the position part of the claim is refuted by
`C2_counterexample`): for every loaded plan whose steps are all objects
carrying a `tool` field, the run returns normally (exit 0) and — under the
repository's default development logging configuration — emits exactly one
JSON line — its report, always a valid JSON value — as the third-to-last
line of stdout: the `finally` block follows it with the logging handler's
`Closing browser` record and then the final `Closing browser...` print. -/
theorem C2_single_report (oracle : Nat → StepOutcome) (fmt : FmtOracle)
    (file : FileInput) (plan : Plan)
    (hload : load_plan_or_die file = .ok plan)
    (hwf : ∀ s ∈ plan.steps, wfStep s = true) :
    isCompleted (run_robot oracle fmt file) = true ∧
    countJson (outLines (run_robot oracle fmt file)) = 1 ∧
    (outLines (run_robot oracle fmt file)).getLast? =
      some (.log "Closing browser...") ∧
    (outLines (run_robot oracle fmt file)).dropLast.getLast? =
      some (logRec "INFO" "Closing browser") ∧
    (outLines (run_robot oracle fmt file)).dropLast.dropLast.getLast? =
      (runReport (run_robot oracle fmt file)).map OutLine.json ∧
    (runReport (run_robot oracle fmt file)).isSome = true := by
  unfold run_robot
  rw [hload]
  obtain ⟨st2, heq, extra, hl, hj⟩ := stepLoop_wf_ok oracle plan.steps 1
    { lines := [logRec "INFO" "Plan loaded successfully",
        logRec "INFO" "Starting plan execution",
        logRec "INFO" ("Goal: " ++ pyStrShallow ((jGet plan.kvs "goal").getD (.str "(none)"))),
        .log ("Goal: " ++ pyStrShallow ((jGet plan.kvs "goal").getD (.str "(none)")))],
      extracted := [], hadError := false, errorMessage := none, attempted := 0 } hwf
  unfold execute_loaded
  simp only [heq]
  obtain ⟨mid, r, hrl, hmid, hrep⟩ := reporting_lines plan.kvs fmt st2
  simp only [isCompleted, outLines, runReport, hrl, hrep]
  have hfree : ((st2.lines ++ mid).filter isJsonLine) = [] := by
    apply filter_json_of_all
    rw [hl]
    simp only [List.append_assoc, List.all_append, hj, hmid, Bool.and_self,
      Bool.and_true]
    rfl
  refine ⟨trivial, ?_, ?_, ?_, ?_, rfl⟩
  · rw [List.filter_append] at hfree
    rcases List.append_eq_nil.mp hfree with ⟨h1, h2⟩
    simp [countJson, List.filter_append, h1, h2, isJsonLine, logRec]
  · rw [show ((st2.lines ++ mid) ++ [OutLine.json r]) ++
        [logRec "INFO" "Closing browser", OutLine.log "Closing browser..."] =
      ((((st2.lines ++ mid) ++ [OutLine.json r]) ++ [logRec "INFO" "Closing browser"]) ++
        [OutLine.log "Closing browser..."]) by simp,
      List.getLast?_concat]
  · rw [show ((st2.lines ++ mid) ++ [OutLine.json r]) ++
        [logRec "INFO" "Closing browser", OutLine.log "Closing browser..."] =
      ((((st2.lines ++ mid) ++ [OutLine.json r]) ++ [logRec "INFO" "Closing browser"]) ++
        [OutLine.log "Closing browser..."]) by simp,
      List.dropLast_concat, List.getLast?_concat]
  · rw [show ((st2.lines ++ mid) ++ [OutLine.json r]) ++
        [logRec "INFO" "Closing browser", OutLine.log "Closing browser..."] =
      ((((st2.lines ++ mid) ++ [OutLine.json r]) ++ [logRec "INFO" "Closing browser"]) ++
        [OutLine.log "Closing browser..."]) by simp,
      List.dropLast_concat, List.dropLast_concat, List.getLast?_concat]
    rfl

theorem reporting_template (planKvs : List (String × Json)) (fmt : FmtOracle)
    (st : LoopState) (v : Json)
    (htp : templateReport planKvs fmt st.extracted = some v) :
    (reporting planKvs fmt st).report = some v ∧
    (reporting planKvs fmt st).usedFallbackReport = false := by
  unfold reporting
  rw [htp]
  exact ⟨rfl, rfl⟩

theorem hasKey_fallbackPayload (planKvs : List (String × Json)) (st : LoopState) :
    hasKey (fallbackPayload planKvs st) "error" =
      (st.hadError && msgTruthy st.errorMessage && st.extracted.isEmpty) := by
  unfold fallbackPayload hasKey
  cases hc : (st.hadError && msgTruthy st.errorMessage && st.extracted.isEmpty) <;>
    simp [jGet]

/-- C3 (amended, "error non-empty" part refuted by `C3_counterexample`):
when step `k = |pre| + 1` raises a timeout-kind fault after `pre` ran
normally, the engine aborts there (exactly `k` loop iterations run, steps
`k+1..n` are never attempted), ExtractedValues equals exactly the captures
of steps `1..k-1`, and the fallback report carries those captures in
`extracted` while its `error` field is present (with the non-empty timeout
message) if and only if no values were extracted. -/
theorem C3_timeout_aborts (oracle : Nat → StepOutcome) (fmt : FmtOracle)
    (planKvs : List (String × Json)) (pre : List Json) (stepK : Json)
    (post : List Json) (m : String)
    (hwf : ∀ s ∈ pre, wfStep s = true)
    (hsafe : ∀ s ∈ pre, stepSafe s = true)
    (hwfk : wfStep stepK = true)
    (hret : ∀ j, j < pre.length → (oracle (1 + j)).isRet = true)
    (htime : oracle (1 + pre.length) = .timeout m)
    (htmpl : ∀ ex, templateReport planKvs fmt ex = none) :
    isCompleted (execute_loaded oracle fmt planKvs (pre ++ stepK :: post)) = true ∧
    runExtracted (execute_loaded oracle fmt planKvs (pre ++ stepK :: post)) =
      captures oracle pre 1 [] ∧
    runAttempted (execute_loaded oracle fmt planKvs (pre ++ stepK :: post)) =
      pre.length + 1 ∧
    runErrorMessage (execute_loaded oracle fmt planKvs (pre ++ stepK :: post)) =
      some ("Timeout: " ++ m) ∧
    runReport (execute_loaded oracle fmt planKvs (pre ++ stepK :: post)) =
      some (Json.obj
        ([("goal", (jGet planKvs "goal").getD .null),
          ("extracted", extractedJson (captures oracle pre 1 []))] ++
         (if (captures oracle pre 1 []).isEmpty then
            [("error", Json.str ("Timeout: " ++ m))] else []))) := by
  obtain ⟨st2, heqB, heB, hhB, hmB, haB⟩ := stepLoop_ret_run oracle pre (stepK :: post) 1
    { lines := [logRec "INFO" "Plan loaded successfully",
        logRec "INFO" "Starting plan execution",
        logRec "INFO" ("Goal: " ++ pyStrShallow ((jGet planKvs "goal").getD (.str "(none)"))),
        .log ("Goal: " ++ pyStrShallow ((jGet planKvs "goal").getD (.str "(none)")))],
      extracted := [], hadError := false, errorMessage := none, attempted := 0 }
    hwf hsafe hret
  obtain ⟨logs, heqC⟩ := stepLoop_timeout oracle stepK post (1 + pre.length) st2 hwfk m htime
  have hext2 : st2.extracted = captures oracle pre 1 [] := heB
  have hatt2 : st2.attempted = pre.length := by simpa using haB
  unfold execute_loaded
  simp only [heqB, heqC]
  obtain ⟨hf1, hf2, hf3, hf4⟩ := reporting_fields planKvs fmt
    { lines := st2.lines ++ logs, extracted := st2.extracted, hadError := true,
      errorMessage := some ("Timeout: " ++ m), attempted := st2.attempted + 1 }
  obtain ⟨hrep, _⟩ := reporting_fallback planKvs fmt
    { lines := st2.lines ++ logs, extracted := st2.extracted, hadError := true,
      errorMessage := some ("Timeout: " ++ m), attempted := st2.attempted + 1 }
    (htmpl _)
  refine ⟨rfl, ?_, ?_, ?_, ?_⟩
  · simp only [runExtracted]
    rw [hf1]
    exact hext2
  · simp only [runAttempted]
    rw [hf4]
    show st2.attempted + 1 = pre.length + 1
    omega
  · simp only [runErrorMessage]
    rw [hf3]
  · simp only [runReport]
    rw [hrep]
    unfold fallbackPayload
    simp only [timeout_msg_truthy, Bool.true_and, hext2]
    rfl

/-- Witness for `C3_timeout_aborts`: one capturing step (`a = v`) followed
by a click that times out; the run completes normally, exactly two loop
iterations run, and the timeout message is recorded. -/
theorem C3_timeout_aborts_witness :
    isCompleted (execute_loaded
      (fun i => if i = 2 then StepOutcome.timeout "t" else StepOutcome.ret (some "v"))
      (fun _ _ => none) [("goal", Json.str "g")]
      ([Json.obj [("tool", Json.str "extract_text"), ("id", Json.str "a")]] ++
        Json.obj [("tool", Json.str "click")] :: [])) = true ∧
    runAttempted (execute_loaded
      (fun i => if i = 2 then StepOutcome.timeout "t" else StepOutcome.ret (some "v"))
      (fun _ _ => none) [("goal", Json.str "g")]
      ([Json.obj [("tool", Json.str "extract_text"), ("id", Json.str "a")]] ++
        Json.obj [("tool", Json.str "click")] :: [])) = 2 ∧
    runErrorMessage (execute_loaded
      (fun i => if i = 2 then StepOutcome.timeout "t" else StepOutcome.ret (some "v"))
      (fun _ _ => none) [("goal", Json.str "g")]
      ([Json.obj [("tool", Json.str "extract_text"), ("id", Json.str "a")]] ++
        Json.obj [("tool", Json.str "click")] :: [])) = some "Timeout: t" := by
  have h := C3_timeout_aborts
    (fun i => if i = 2 then StepOutcome.timeout "t" else StepOutcome.ret (some "v"))
    (fun _ _ => none) [("goal", Json.str "g")]
    [Json.obj [("tool", Json.str "extract_text"), ("id", Json.str "a")]]
    (Json.obj [("tool", Json.str "click")]) [] "t"
    (by decide) (by decide) (by decide) (by decide) rfl (fun _ => rfl)
  exact ⟨h.1, h.2.2.1, h.2.2.2.1⟩

/-- Counterexample to the `error` clause of claim C3: when a value was
captured before the timeout, the run still records the non-empty timeout
message, but the printed fallback report has no `error` key at all (the
code adds one only when nothing was extracted). -/
theorem C3_counterexample :
    runHadError (execute_loaded
      (fun i => if i = 2 then StepOutcome.timeout "boom" else StepOutcome.ret (some "v"))
      (fun _ _ => none) [("goal", Json.str "g")]
      [Json.obj [("tool", Json.str "extract_text"), ("id", Json.str "a")],
       Json.obj [("tool", Json.str "click")]]) = true ∧
    runErrorMessage (execute_loaded
      (fun i => if i = 2 then StepOutcome.timeout "boom" else StepOutcome.ret (some "v"))
      (fun _ _ => none) [("goal", Json.str "g")]
      [Json.obj [("tool", Json.str "extract_text"), ("id", Json.str "a")],
       Json.obj [("tool", Json.str "click")]]) = some "Timeout: boom" ∧
    (runExtracted (execute_loaded
      (fun i => if i = 2 then StepOutcome.timeout "boom" else StepOutcome.ret (some "v"))
      (fun _ _ => none) [("goal", Json.str "g")]
      [Json.obj [("tool", Json.str "extract_text"), ("id", Json.str "a")],
       Json.obj [("tool", Json.str "click")]])).isEmpty = false ∧
    reportHasError (execute_loaded
      (fun i => if i = 2 then StepOutcome.timeout "boom" else StepOutcome.ret (some "v"))
      (fun _ _ => none) [("goal", Json.str "g")]
      [Json.obj [("tool", Json.str "extract_text"), ("id", Json.str "a")],
       Json.obj [("tool", Json.str "click")]]) = false := by
  exact ⟨rfl, rfl, rfl, rfl⟩

theorem loadFatal_eq (file : FileInput) :
    loadFatal file = !(exceptOk (load_plan_or_die file)) := by
  cases file with
  | missing => rfl
  | present raw parsed =>
    cases hb : (stripL raw.data).isEmpty with
    | true =>
      simp only [loadFatal, load_plan_or_die, hb, if_pos, Bool.true_or]
      rfl
    | false =>
      cases parsed with
      | none =>
        simp only [loadFatal, load_plan_or_die, hb, Bool.false_or, if_neg]
        rfl
      | some j =>
        cases j with
        | obj kvs =>
          simp only [loadFatal, load_plan_or_die, hb, Bool.false_or, if_neg]
          cases hg : jGet kvs "steps" with
          | none => rfl
          | some v => cases v <;> rfl
        | null =>
          simp only [loadFatal, load_plan_or_die, hb, Bool.false_or, if_neg]
          rfl
        | bool b =>
          simp only [loadFatal, load_plan_or_die, hb, Bool.false_or, if_neg]
          rfl
        | num n =>
          simp only [loadFatal, load_plan_or_die, hb, Bool.false_or, if_neg]
          rfl
        | str t =>
          simp only [loadFatal, load_plan_or_die, hb, Bool.false_or, if_neg]
          rfl
        | arr a =>
          simp only [loadFatal, load_plan_or_die, hb, Bool.false_or, if_neg]
          rfl

theorem execute_loaded_ne_two (oracle : Nat → StepOutcome) (fmt : FmtOracle)
    (planKvs : List (String × Json)) (steps : List Json) :
    exit_code (execute_loaded oracle fmt planKvs steps) ≠ 2 := by
  simp only [execute_loaded]
  split <;> simp [exit_code]

/-- C4: in the fallback report the `error` key appears only when an error
occurred and nothing was extracted (the code further requires a truthy
message); consequently a non-empty `extracted`, or an error-free run,
always yields a report without an `error` key. -/
theorem C4_fallback_error_key (planKvs : List (String × Json)) (st : LoopState) :
    (hasKey (fallbackPayload planKvs st) "error" = true →
      st.hadError = true ∧ st.extracted.isEmpty = true ∧
        msgTruthy st.errorMessage = true) ∧
    (st.extracted.isEmpty = false ∨ st.hadError = false →
      hasKey (fallbackPayload planKvs st) "error" = false) := by
  rw [hasKey_fallbackPayload]
  constructor
  · intro h
    simp only [Bool.and_eq_true] at h
    exact ⟨h.1.1, h.2, h.1.2⟩
  · intro h
    rcases h with h | h
    · simp [h]
    · simp [h]

/-- Witness for `C4_fallback_error_key`: with a captured value present, the
fallback report of a failed run carries no `error` key. -/
theorem C4_fallback_error_key_witness :
    hasKey (fallbackPayload [("goal", Json.str "g")]
      { lines := [], extracted := [(PyKey.str "a", "v")], hadError := true,
        errorMessage := some "boom", attempted := 1 }) "error" = false :=
  (C4_fallback_error_key [("goal", Json.str "g")]
    { lines := [], extracted := [(PyKey.str "a", "v")], hadError := true,
      errorMessage := some "boom", attempted := 1 }).2 (Or.inl rfl)

/-- C7 (amended; the "in every other case the run exits 0" part is refuted
by `C7_counterexample`): the runner exits 2 exactly when the plan file is
missing, empty, not valid JSON, or lacks a list-valued `steps` key; and
when loading succeeds and every step is an object carrying a `tool` field,
the run exits 0 — including a run that reached the failed state but still
printed a valid report. -/
theorem C7_exit_codes (oracle : Nat → StepOutcome) (fmt : FmtOracle) :
    (∀ file, exit_code (run_robot oracle fmt file) = 2 ↔ loadFatal file = true) ∧
    (∀ file plan, load_plan_or_die file = .ok plan →
      (∀ s ∈ plan.steps, wfStep s = true) →
      exit_code (run_robot oracle fmt file) = 0) := by
  constructor
  · intro file
    rw [loadFatal_eq]
    unfold run_robot
    cases hl : load_plan_or_die file with
    | error e => simp [exceptOk, exit_code]
    | ok plan =>
      have h2 := execute_loaded_ne_two oracle fmt plan.kvs plan.steps
      simp [exceptOk, h2]
  · intro file plan hl hwf
    unfold run_robot
    rw [hl]
    obtain ⟨st2, heq, _⟩ := stepLoop_wf_ok oracle plan.steps 1
      { lines := [logRec "INFO" "Plan loaded successfully",
          logRec "INFO" "Starting plan execution",
          logRec "INFO" ("Goal: " ++ pyStrShallow ((jGet plan.kvs "goal").getD (.str "(none)"))),
          .log ("Goal: " ++ pyStrShallow ((jGet plan.kvs "goal").getD (.str "(none)")))],
        extracted := [], hadError := false, errorMessage := none, attempted := 0 } hwf
    unfold execute_loaded
    simp only [heq]
    rfl

/-- Witness for `C7_exit_codes`: a missing plan file exits 2, and a
loadable plan with an empty steps list exits 0. -/
theorem C7_exit_codes_witness :
    exit_code (run_robot (fun _ => StepOutcome.ret none) (fun _ _ => none)
      FileInput.missing) = 2 ∧
    exit_code (run_robot (fun _ => StepOutcome.ret none) (fun _ _ => none)
      (FileInput.present "x" (some (Json.obj [("steps", Json.arr [])])))) = 0 := by
  refine ⟨((C7_exit_codes (fun _ => StepOutcome.ret none) (fun _ _ => none)).1
      FileInput.missing).mpr rfl,
    (C7_exit_codes (fun _ => StepOutcome.ret none) (fun _ _ => none)).2
      (FileInput.present "x" (some (Json.obj [("steps", Json.arr [])])))
      ⟨[("steps", Json.arr [])], []⟩ rfl (by simp)⟩

/-- Counterexample to claim C7's "in every other case loading succeeds and
the run exits 0": a plan that loads successfully but whose single step is
the number `42` makes the step loop raise, and the process exits 1. -/
theorem C7_counterexample :
    loadFatal (FileInput.present "x"
      (some (Json.obj [("steps", Json.arr [Json.num 42])]))) = false ∧
    exit_code (run_robot (fun _ => StepOutcome.ret none) (fun _ _ => none)
      (FileInput.present "x"
        (some (Json.obj [("steps", Json.arr [Json.num 42])])))) = 1 := by
  exact ⟨rfl, rfl⟩

/-- Witness for `C2_single_report`: a loadable plan with an empty steps
list completes with exactly one JSON line and a present report. -/
theorem C2_single_report_witness :
    isCompleted (run_robot (fun _ => StepOutcome.ret none) (fun _ _ => none)
      (FileInput.present "p" (some (Json.obj [("steps", Json.arr [])])))) = true ∧
    countJson (outLines (run_robot (fun _ => StepOutcome.ret none) (fun _ _ => none)
      (FileInput.present "p" (some (Json.obj [("steps", Json.arr [])]))))) = 1 ∧
    (runReport (run_robot (fun _ => StepOutcome.ret none) (fun _ _ => none)
      (FileInput.present "p" (some (Json.obj [("steps", Json.arr [])]))))).isSome = true := by
  have h := C2_single_report (fun _ => StepOutcome.ret none) (fun _ _ => none)
    (FileInput.present "p" (some (Json.obj [("steps", Json.arr [])])))
    ⟨[("steps", Json.arr [])], []⟩ rfl (by simp)
  exact ⟨h.1, h.2.1, h.2.2.2.2.2⟩

/-- Counterexample to claim C2's "written as the last line of program
output": the single JSON report is only the third-to-last stdout line —
after it come the logging handler's `Closing browser` record and the
plain `Closing browser...` print from the `finally` block, both of them
non-JSON. -/
theorem C2_counterexample :
    countJson (outLines (run_robot (fun _ => StepOutcome.ret none) (fun _ _ => none)
      (FileInput.present "p" (some (Json.obj [("steps", Json.arr [])]))))) = 1 ∧
    ((outLines (run_robot (fun _ => StepOutcome.ret none) (fun _ _ => none)
      (FileInput.present "p" (some (Json.obj [("steps",
        Json.arr [])]))))).getLast?).map isJsonLine = some false ∧
    ((outLines (run_robot (fun _ => StepOutcome.ret none) (fun _ _ => none)
      (FileInput.present "p" (some (Json.obj [("steps",
        Json.arr [])]))))).dropLast.getLast?).map isJsonLine = some false ∧
    ((outLines (run_robot (fun _ => StepOutcome.ret none) (fun _ _ => none)
      (FileInput.present "p" (some (Json.obj [("steps",
        Json.arr [])]))))).dropLast.dropLast.getLast?).map isJsonLine = some true := by
  exact ⟨rfl, rfl, rfl, rfl⟩

/-! ## The calling service's stdout parsing (C9, `app.py`)

`_parse_json_tail` runs `re.findall(r"\x7b.*\x7d", stdout, re.DOTALL)` and
scans the candidates in reverse through `json.loads`;
`_fallback_key_values` collects filtered `key: value` lines; `launch`
prefers the tail mapping and falls back when it is empty.  `json.loads` is
modelled over this file's `Json` (integer numbers only); text is a
character list. -/

/-- One hexadecimal digit of a `\uXXXX` escape. -/
def hexDigit (c : Char) : Option Nat :=
  if '0' ≤ c ∧ c ≤ '9' then some (c.toNat - '0'.toNat)
  else if 'a' ≤ c ∧ c ≤ 'f' then some (c.toNat - 'a'.toNat + 10)
  else if 'A' ≤ c ∧ c ≤ 'F' then some (c.toNat - 'A'.toNat + 10)
  else none

/-- The body of a JSON string after its opening quote: the decoded
characters and the text after the closing quote (`json.loads` string
escapes; raw control characters are refused). -/
def strChars : List Char → Option (List Char × List Char)
  | [] => none
  | c :: rest =>
    if c = '"' then some ([], rest)
    else if c = '\\' then
      match rest with
      | [] => none
      | e :: rest2 =>
        if e = 'u' then
          match rest2 with
          | h1 :: h2 :: h3 :: h4 :: rest3 =>
            match hexDigit h1, hexDigit h2, hexDigit h3, hexDigit h4 with
            | some a, some b, some c2, some d =>
              (strChars rest3).map
                (fun p => (Char.ofNat (((a * 16 + b) * 16 + c2) * 16 + d) :: p.1, p.2))
            | _, _, _, _ => none
          | _ => none
        else
          match
            (if e = '"' then some '"' else if e = '\\' then some '\\'
             else if e = '/' then some '/' else if e = 'b' then some (Char.ofNat 8)
             else if e = 'f' then some (Char.ofNat 12) else if e = 'n' then some '\n'
             else if e = 'r' then some (Char.ofNat 13) else if e = 't' then some '\t'
             else none) with
          | some d => (strChars rest2).map (fun p => (d :: p.1, p.2))
          | none => none
    else if c.toNat < 32 then none
    else (strChars rest).map (fun p => (c :: p.1, p.2))

/-- Split a leading run of decimal digits. -/
def digitsRun : List Char → List Char × List Char
  | [] => ([], [])
  | c :: rest =>
    if c.isDigit then
      let p := digitsRun rest
      (c :: p.1, p.2)
    else ([], c :: rest)

/-- The number a digit run denotes. -/
def natOfDigits (ds : List Char) : Nat :=
  ds.foldl (fun a c => a * 10 + (c.toNat - 48)) 0

/-- A JSON number as `json.loads` accepts it, restricted to the model's
integers: optional minus, `0` or a run without a leading zero, no fraction
or exponent (non-integer numbers are outside this file's `Json.num`). -/
def jsonNum (cs : List Char) : Option (Int × List Char) :=
  let neg := match cs with | '-' :: _ => true | _ => false
  let cs1 := match cs with | '-' :: r => r | _ => cs
  match digitsRun cs1 with
  | ([], _) => none
  | (d :: ds, rest) =>
    if d = '0' ∧ ds ≠ [] then none
    else
      match rest with
      | '.' :: _ => none
      | 'e' :: _ => none
      | 'E' :: _ => none
      | _ => some (if neg then -(natOfDigits (d :: ds) : Int) else (natOfDigits (d :: ds) : Int), rest)

/-- Skip JSON whitespace. -/
def skipWs : List Char → List Char
  | [] => []
  | c :: rest =>
    if c = ' ' ∨ c = '\t' ∨ c = '\n' ∨ c = '\r' then skipWs rest else c :: rest

/-- Python dict insertion while decoding a JSON object: a repeated key
keeps its first position but takes the later value. -/
def objUpd : List (String × Json) → String → Json → List (String × Json)
  | [], k, v => [(k, v)]
  | (k2, v2) :: rest, k, v =>
    if k2 = k then (k, v) :: rest else (k2, v2) :: objUpd rest k v

/-- The dict `json.loads` builds from an object's fields in order. -/
def objCanon (fields : List (String × Json)) : List (String × Json) :=
  fields.foldl (fun acc kv => objUpd acc kv.1 kv.2) []

mutual

/-- One JSON value (the `json.loads` grammar over the model's `Json`),
fueled by nesting depth. -/
def jsonVal : Nat → List Char → Option (Json × List Char)
  | 0, _ => none
  | fuel + 1, cs =>
    match skipWs cs with
    | [] => none
    | c :: rest =>
      if c = '"' then
        (strChars rest).map (fun p => (Json.str (String.mk p.1), p.2))
      else if c = '\x7b' then
        match skipWs rest with
        | '\x7d' :: rest2 => some (Json.obj [], rest2)
        | cs2 => (jsonFields fuel cs2).map (fun p => (Json.obj (objCanon p.1), p.2))
      else if c = '[' then
        match skipWs rest with
        | ']' :: rest2 => some (Json.arr [], rest2)
        | cs2 => (jsonItems fuel cs2).map (fun p => (Json.arr p.1, p.2))
      else if c = 't' then
        match rest with
        | 'r' :: 'u' :: 'e' :: rest2 => some (Json.bool true, rest2)
        | _ => none
      else if c = 'f' then
        match rest with
        | 'a' :: 'l' :: 's' :: 'e' :: rest2 => some (Json.bool false, rest2)
        | _ => none
      else if c = 'n' then
        match rest with
        | 'u' :: 'l' :: 'l' :: rest2 => some (Json.null, rest2)
        | _ => none
      else
        (jsonNum (c :: rest)).map (fun p => (Json.num p.1, p.2))

/-- The fields of a JSON object after its opening brace (at least one). -/
def jsonFields : Nat → List Char → Option (List (String × Json) × List Char)
  | 0, _ => none
  | fuel + 1, cs =>
    match skipWs cs with
    | '"' :: rest =>
      match strChars rest with
      | none => none
      | some (key, rest2) =>
        match skipWs rest2 with
        | ':' :: rest3 =>
          match jsonVal fuel rest3 with
          | none => none
          | some (v, rest4) =>
            match skipWs rest4 with
            | ',' :: rest5 =>
              (jsonFields fuel rest5).map
                (fun p => ((String.mk key, v) :: p.1, p.2))
            | '\x7d' :: rest5 => some ([(String.mk key, v)], rest5)
            | _ => none
        | _ => none
    | _ => none

/-- The items of a JSON array after its opening bracket (at least one). -/
def jsonItems : Nat → List Char → Option (List Json × List Char)
  | 0, _ => none
  | fuel + 1, cs =>
    match jsonVal fuel cs with
    | none => none
    | some (v, rest) =>
      match skipWs rest with
      | ',' :: rest2 => (jsonItems fuel rest2).map (fun p => (v :: p.1, p.2))
      | ']' :: rest2 => some ([v], rest2)
      | _ => none

end

/-- `json.loads` on a candidate string: one value, then only whitespace
(the fuel covers any nesting a text of that length can spell). -/
def jsonLoads (cs : List Char) : Option Json :=
  match jsonVal (2 * cs.length + 2) cs with
  | some (v, rest) => if (skipWs rest).isEmpty then some v else none
  | none => none

/-- The text after the first opening brace of the output, if any. -/
def afterFirstBrace : List Char → Option (List Char)
  | [] => none
  | c :: rest => if c = '\x7b' then some rest else afterFirstBrace rest

/-- The prefix of `cs` ending at its last closing brace, if any. -/
def upToLastClose : List Char → Option (List Char)
  | [] => none
  | c :: rest =>
    match upToLastClose rest with
    | some p => some (c :: p)
    | none => if c = '\x7d' then some [c] else none

/-- `re.findall(r"\x7b.*\x7d", stdout, flags=re.DOTALL)` (line 194): `.`
also matches newlines and `.*` is greedy, so the only possible match runs
from the first opening brace to the last closing brace after it, and the
text after that match holds no further closing brace — `findall` yields at
most one candidate. -/
def jsonCandidates (cs : List Char) : List (List Char) :=
  match afterFirstBrace cs with
  | none => []
  | some rest =>
    match upToLastClose rest with
    | none => []
    | some body => ['\x7b' :: body]

/-- The scanning loop of `_parse_json_tail` (lines 195-202): candidates in
reverse; one that loads as a dict with a dict-valued `extracted` field
returns that field. -/
def tailScan : List (List Char) → List (String × Json)
  | [] => []
  | c :: rest =>
    match jsonLoads c with
    | some (Json.obj kvs) =>
      match jGet kvs "extracted" with
      | some (Json.obj ekvs) => ekvs
      | _ => tailScan rest
    | _ => tailScan rest

/-- `_parse_json_tail` (lines 189-203). -/
def parse_json_tail (stdout : List Char) : List (String × Json) :=
  tailScan (jsonCandidates stdout).reverse

/-- Python `str.splitlines` (restricted to `\n` terminators, the only ones
in the modelled stdout): `cur` holds the current line reversed. -/
def splitLinesAux (cur : List Char) : List Char → List (List Char)
  | [] => [cur.reverse]
  | c :: rest =>
    if c = '\n' then
      cur.reverse ::
        (match rest with
         | [] => []
         | _ => splitLinesAux [] rest)
    else splitLinesAux (c :: cur) rest

/-- `stdout.splitlines()`. -/
def splitLinesL (cs : List Char) : List (List Char) :=
  match cs with
  | [] => []
  | _ => splitLinesAux [] cs

/-- `raw.split(":", 1)`: the text before the first colon and the text
after it, or nothing when the line has no colon. -/
def splitColon : List Char → Option (List Char × List Char)
  | [] => none
  | c :: rest =>
    if c = ':' then some ([], rest)
    else (splitColon rest).map (fun p => (c :: p.1, p.2))

/-- Python `str.lower` on a character list. -/
def lowerL (cs : List Char) : List Char := cs.map Char.toLower

/-- Python dict assignment with string keys (`extracted[key] = val`). -/
def dictSetS : List (String × String) → String → String → List (String × String)
  | [], k, v => [(k, v)]
  | (k2, v2) :: rest, k, v =>
    if k2 = k then (k, v) :: rest else (k2, v2) :: dictSetS rest k v

/-- The filter of `_fallback_key_values` on one stripped `key`/`value`
pair (lines 218-226): drop control-log keys (lowered prefixes
`step`/`goal`/`error`/`call log`, lowered exact members
`closing browser`/`extracted values`) and keys that are not one nonempty
run of word characters, else record the pair. -/
def fkvEntry (acc : List (String × String)) (key val : List Char) :
    List (String × String) :=
  if List.isPrefixOf "step".data (lowerL key) ||
      List.isPrefixOf "goal".data (lowerL key) ||
      List.isPrefixOf "error".data (lowerL key) ||
      List.isPrefixOf "call log".data (lowerL key) then acc
  else if lowerL key = "closing browser".data ∨
      lowerL key = "extracted values".data then acc
  else if !key.isEmpty && key.all isWordChar then
    dictSetS acc (String.mk key) (String.mk val)
  else acc

/-- One line of `_fallback_key_values` (lines 212-226): strip, require a
colon, split at the first one, strip key and value, and filter. -/
def fkvLine (acc : List (String × String)) (line : List Char) :
    List (String × String) :=
  match splitColon (stripL line) with
  | none => acc
  | some (k0, v0) => fkvEntry acc (stripL k0) (stripL v0)

/-- `_fallback_key_values` (lines 206-227). -/
def fallback_key_values (stdout : List Char) : List (String × String) :=
  (splitLinesL stdout).foldl fkvLine []

/-- The combination in `launch` (lines 359-363): prefer the JSON tail's
`extracted` mapping; when it is empty — no candidate worked, or the found
mapping was itself empty — fall back to the `key: value` lines. -/
def launchExtracted (stdout : List Char) : List (String × Json) :=
  let e := parse_json_tail stdout
  if e.isEmpty then
    (fallback_key_values stdout).map (fun kv => (kv.1, Json.str kv.2))
  else e

/-- A fallback key as the filter admits it: a nonempty word-character run
whose lowering starts with none of the control-log prefixes. -/
def goodFbKey (k : String) : Bool :=
  !k.data.isEmpty && k.data.all isWordChar &&
  !List.isPrefixOf "step".data (lowerL k.data) &&
  !List.isPrefixOf "goal".data (lowerL k.data) &&
  !List.isPrefixOf "error".data (lowerL k.data) &&
  !List.isPrefixOf "call log".data (lowerL k.data)

theorem mem_dictSetS : ∀ (d : List (String × String)) (k v : String),
    ∀ kv ∈ dictSetS d k v, kv.1 = k ∨ kv ∈ d := by
  intro d
  induction d with
  | nil =>
    intro k v kv h
    simp only [dictSetS, List.mem_singleton] at h
    rw [h]
    exact Or.inl rfl
  | cons hd tl ih =>
    intro k v kv h
    obtain ⟨k2, v2⟩ := hd
    simp only [dictSetS] at h
    by_cases he : k2 = k
    · rw [if_pos he] at h
      rcases List.mem_cons.mp h with h | h
      · rw [h]
        exact Or.inl rfl
      · exact Or.inr (List.mem_cons_of_mem _ h)
    · rw [if_neg he] at h
      rcases List.mem_cons.mp h with h | h
      · rw [h]
        exact Or.inr (List.mem_cons_self _ _)
      · rcases ih k v kv h with h2 | h2
        · exact Or.inl h2
        · exact Or.inr (List.mem_cons_of_mem _ h2)

theorem fkvEntry_keys (acc : List (String × String)) (key val : List Char)
    (hacc : ∀ kv ∈ acc, goodFbKey kv.1 = true) :
    ∀ kv ∈ fkvEntry acc key val, goodFbKey kv.1 = true := by
  intro kv h
  unfold fkvEntry at h
  by_cases h1 : (List.isPrefixOf "step".data (lowerL key) ||
      List.isPrefixOf "goal".data (lowerL key) ||
      List.isPrefixOf "error".data (lowerL key) ||
      List.isPrefixOf "call log".data (lowerL key)) = true
  · rw [if_pos h1] at h
    exact hacc kv h
  · rw [if_neg h1] at h
    by_cases h2 : lowerL key = "closing browser".data ∨
        lowerL key = "extracted values".data
    · rw [if_pos h2] at h
      exact hacc kv h
    · rw [if_neg h2] at h
      by_cases h3 : (!key.isEmpty && key.all isWordChar) = true
      · rw [if_pos h3] at h
        rcases mem_dictSetS acc _ _ kv h with h4 | h4
        · rw [h4]
          simp only [Bool.or_eq_true, not_or, Bool.not_eq_true] at h1
          simp only [Bool.and_eq_true] at h3
          simp only [goodFbKey, Bool.and_eq_true]
          exact ⟨⟨⟨⟨⟨h3.1, h3.2⟩, by simp [h1.1.1.1]⟩, by simp [h1.1.1.2]⟩,
            by simp [h1.1.2]⟩, by simp [h1.2]⟩
        · exact hacc kv h4
      · rw [if_neg h3] at h
        exact hacc kv h

theorem fkvLine_keys (acc : List (String × String)) (line : List Char)
    (hacc : ∀ kv ∈ acc, goodFbKey kv.1 = true) :
    ∀ kv ∈ fkvLine acc line, goodFbKey kv.1 = true := by
  intro kv h
  unfold fkvLine at h
  rcases hs : splitColon (stripL line) with _ | ⟨k0, v0⟩
  · rw [hs] at h
    exact hacc kv h
  · rw [hs] at h
    exact fkvEntry_keys acc (stripL k0) (stripL v0) hacc kv h

theorem fallback_keys (stdout : List Char) :
    ∀ kv ∈ fallback_key_values stdout, goodFbKey kv.1 = true := by
  unfold fallback_key_values
  suffices h : ∀ (lines : List (List Char)) (acc : List (String × String)),
      (∀ kv ∈ acc, goodFbKey kv.1 = true) →
      ∀ kv ∈ lines.foldl fkvLine acc, goodFbKey kv.1 = true by
    exact h _ [] (by simp)
  intro lines
  induction lines with
  | nil =>
    intro acc hacc kv h
    exact hacc kv (by simpa using h)
  | cons l tl ih =>
    intro acc hacc kv h
    rw [List.foldl_cons] at h
    exact ih (fkvLine acc l) (fkvLine_keys acc l hacc) kv h

/-- C9 (amended; the "last well-formed JSON object" and "only when no such
object is found" parts are refuted by `C9_counterexample`): the calling
service's tail parsing considers at most one candidate — the single greedy
regex span from the first opening brace of the whole output to its last
closing brace — and returns that span's `extracted` mapping when it loads
as an object with a dict-valued `extracted` field; the service falls back
to `key: value` lines exactly when the tail mapping is empty (none found,
or found empty), and every fallback key is a nonempty word-character token
whose lowering starts with no control-log prefix. -/
theorem C9_launch_parsing :
    (∀ stdout : List Char, (jsonCandidates stdout).length ≤ 1) ∧
    (∀ (stdout c : List Char) (kvs ekvs : List (String × Json)),
      jsonCandidates stdout = [c] →
      jsonLoads c = some (Json.obj kvs) →
      jGet kvs "extracted" = some (Json.obj ekvs) →
      parse_json_tail stdout = ekvs) ∧
    (∀ (stdout : List Char) (kv : String × String),
      kv ∈ fallback_key_values stdout → goodFbKey kv.1 = true) ∧
    (∀ stdout : List Char,
      launchExtracted stdout =
        if (parse_json_tail stdout).isEmpty then
          (fallback_key_values stdout).map (fun kv => (kv.1, Json.str kv.2))
        else parse_json_tail stdout) := by
  refine ⟨?_, ?_, ?_, ?_⟩
  · intro stdout
    unfold jsonCandidates
    cases afterFirstBrace stdout with
    | none => simp
    | some rest =>
      rcases h : upToLastClose rest with _ | body
      · simp [h]
      · simp [h]
  · intro stdout c kvs ekvs h1 h2 h3
    unfold parse_json_tail
    rw [h1]
    simp only [List.reverse_cons, List.reverse_nil, List.nil_append]
    unfold tailScan
    simp only [h2, h3]
  · intro stdout kv h
    exact fallback_keys stdout kv h
  · intro stdout
    rfl

/-- Witness for `C9_launch_parsing`: on an output whose brace span is a
report with an `extracted` mapping, the tail parsing returns that mapping;
and the key of a plain `a: v` line passes the fallback filter. -/
theorem C9_launch_parsing_witness :
    parse_json_tail ("log \x7b\"extracted\": \x7b\"a\": \"v\"\x7d\x7d".data) =
      [("a", Json.str "v")] ∧
    goodFbKey "a" = true := by
  refine ⟨C9_launch_parsing.2.1 _ ("\x7b\"extracted\": \x7b\"a\": \"v\"\x7d\x7d".data)
      [("extracted", Json.obj [("a", Json.str "v")])] [("a", Json.str "v")]
      rfl rfl rfl,
    C9_launch_parsing.2.2.1 ("a: v".data) ("a", "v") (by decide)⟩

/-- Counterexample to claim C9: the first output below ends in a line that
is a well-formed JSON report with a non-empty `extracted` mapping, yet the
service returns nothing — the single greedy candidate spans from the first
brace of an earlier non-JSON line to the end and fails to load, and every
`key: value` line is filtered out.  The second output's report IS found,
with an empty `extracted` mapping, yet the service still falls back to
`key: value` lines — refuting "only when no such object is found". -/
theorem C9_counterexample :
    (splitLinesL ("\x7bbad\x7d\nGoal: g\n\x7b\"goal\": \"g\", \"extracted\": \x7b\"a\": \"v\"\x7d\x7d".data)).getLast? =
      some ("\x7b\"goal\": \"g\", \"extracted\": \x7b\"a\": \"v\"\x7d\x7d".data) ∧
    jsonLoads ("\x7b\"goal\": \"g\", \"extracted\": \x7b\"a\": \"v\"\x7d\x7d".data) =
      some (Json.obj [("goal", Json.str "g"),
        ("extracted", Json.obj [("a", Json.str "v")])]) ∧
    launchExtracted ("\x7bbad\x7d\nGoal: g\n\x7b\"goal\": \"g\", \"extracted\": \x7b\"a\": \"v\"\x7d\x7d".data) = [] ∧
    jsonCandidates ("\x7b\"extracted\": \x7b\x7d\x7d\nfoo: bar".data) =
      ["\x7b\"extracted\": \x7b\x7d\x7d".data] ∧
    jsonLoads ("\x7b\"extracted\": \x7b\x7d\x7d".data) =
      some (Json.obj [("extracted", Json.obj [])]) ∧
    launchExtracted ("\x7b\"extracted\": \x7b\x7d\x7d\nfoo: bar".data) =
      [("foo", Json.str "bar")] := by
  refine ⟨rfl, rfl, rfl, rfl, rfl, rfl⟩

end LaInternship
